import Mathlib

/-!
# EXIF orientation reader (`exif.go`)

A shallow embedding of `readOrientation` from `exif.go`, with `Encode` from `image.go`
and `Close` from `fs.go`, and theorems about them.

The `io.Reader` argument is a finite byte stream: the list of bytes that remain to
be read.  `binary.Read` of a 2- or 4-byte unsigned integer is `io.ReadFull` followed
by a decode in the given byte order; `io.CopyN(io.Discard, reader, n)` discards
exactly `n` bytes or fails.  Both fail when the stream holds fewer bytes than asked.
-/

namespace Images

/-- One byte of the stream. -/
abbrev Byte := Fin 256

/-- The state of the `io.Reader`: the bytes not yet consumed. -/
abbrev Reader := List Byte

/-! ## Constants of `exif.go` -/

def orientationUnspecified : Nat := 0
def orientationNormal : Nat := 1
def orientationFlipH : Nat := 2
def orientationRotate180 : Nat := 3
def orientationFlipV : Nat := 4
def orientationTranspose : Nat := 5
def orientationRotate270 : Nat := 6
def orientationTransverse : Nat := 7
def orientationRotate90 : Nat := 8

def markerSOI : Nat := 0xffd8
def markerAPP1 : Nat := 0xffe1
def exifHeader : Nat := 0x45786966
def byteOrderBE : Nat := 0x4d4d
def byteOrderLE : Nat := 0x4949
def orientationTag : Nat := 0x0112

/-! ## The reader primitives -/

/-- The two implementations of `binary.ByteOrder` the function uses. -/
inductive ByteOrder where
  | BigEndian
  | LittleEndian
deriving DecidableEq

/-- Decoding of two bytes, `ByteOrder.Uint16`. -/
def ByteOrder.uint16 : ByteOrder → Byte → Byte → Nat
  | .BigEndian, b0, b1 => b0.val * 256 + b1.val
  | .LittleEndian, b0, b1 => b1.val * 256 + b0.val

/-- Decoding of four bytes, `ByteOrder.Uint32`. -/
def ByteOrder.uint32 : ByteOrder → Byte → Byte → Byte → Byte → Nat
  | .BigEndian, b0, b1, b2, b3 =>
    b0.val * 16777216 + b1.val * 65536 + b2.val * 256 + b3.val
  | .LittleEndian, b0, b1, b2, b3 =>
    b3.val * 16777216 + b2.val * 65536 + b1.val * 256 + b0.val

/-- Models `binary.Read(reader, order, &x)` for `x uint16`: the decoded value and the
reader after it, or `none` when fewer than 2 bytes remain (the read returns an error). -/
def readUint16 (order : ByteOrder) : Reader → Option (Nat × Reader)
  | b0 :: b1 :: rest => some (order.uint16 b0 b1, rest)
  | _ => none

/-- Models `binary.Read(reader, order, &x)` for `x uint32`: `none` when fewer than
4 bytes remain. -/
def readUint32 (order : ByteOrder) : Reader → Option (Nat × Reader)
  | b0 :: b1 :: b2 :: b3 :: rest => some (order.uint32 b0 b1 b2 b3, rest)
  | _ => none

/-- Models `io.CopyN(io.Discard, reader, n)`: the reader after `n` discarded bytes, or
`none` when the stream ends first (the copy returns `io.EOF`). -/
def copyN (n : Nat) (r : Reader) : Option Reader :=
  if n ≤ r.length then some (r.drop n) else none

/-! ## `readOrientation` -/

/-- How a run of `readOrientation` ends. -/
inductive Outcome where
  /-- The statement `return orientation(direction)`, with the reader as it is left. -/
  | found (direction : Nat) (rest : Reader)
  /-- Any of the statements `return orientationUnspecified`. -/
  | unspecified
  /-- The marker loop has not been left within the iterations allowed to the model. -/
  | outOfFuel
deriving DecidableEq

/-- The value a finished run returns; `none` for a run that has not finished. -/
def Outcome.value : Outcome → Option Nat
  | .found direction _ => some direction
  | .unspecified => some orientationUnspecified
  | .outOfFuel => none

/-- The tag loop `for i := 0; i < int(numTags); i++`; the first argument is the number
of iterations that remain, `int(numTags) - i`. -/
def walkTags : Nat → Reader → Outcome
  | 0, _ => .unspecified
  | n + 1, r =>
    match readUint16 .BigEndian r with
    | none => .unspecified
    | some (tag, r1) =>
      if tag ≠ orientationTag then
        match copyN 10 r1 with
        | none => .unspecified
        | some r2 => walkTags n r2
      else
        match copyN 6 r1 with
        | none => .unspecified
        | some r2 =>
          match readUint16 .BigEndian r2 with
          | none => .unspecified
          | some (direction, r3) =>
            if direction < 1 ∨ direction > 8 then .unspecified
            else .found direction r3

/-- The part of `readOrientation` from the directory on: the tag count, read in the
resolved byte order, and the tag loop. -/
def walkIFD0 (byteOrder : ByteOrder) (r : Reader) : Outcome :=
  match readUint16 byteOrder r with
  | none => .unspecified
  | some (numTags, r1) => walkTags numTags r1

/-- The part of `readOrientation` after the marker loop is left by `break`: the
`Exif` header, the byte-order tag and the offset of the directory, then the directory. -/
def parseExif (r : Reader) : Outcome :=
  match readUint32 .BigEndian r with
  | none => .unspecified
  | some (header, r1) =>
    if header ≠ exifHeader then .unspecified
    else
      match copyN 2 r1 with
      | none => .unspecified
      | some r2 =>
        match readUint16 .BigEndian r2 with
        | none => .unspecified
        | some (byteOrderTag, r3) =>
          match (if byteOrderTag = byteOrderBE then some ByteOrder.BigEndian
                 else if byteOrderTag = byteOrderLE then some ByteOrder.LittleEndian
                 else none) with
          | none => .unspecified
          | some byteOrder =>
            match copyN 2 r3 with
            | none => .unspecified
            | some r4 =>
              match readUint32 .BigEndian r4 with
              | none => .unspecified
              | some (offset, r5) =>
                if offset < 8 then .unspecified
                else
                  -- `offset - 8` does not wrap: `offset ≥ 8` here
                  match copyN (offset - 8) r5 with
                  | none => .unspecified
                  | some r6 => walkIFD0 byteOrder r6

/-- The marker loop `for { ... }`, with the rest of the function run when the loop is
left by `break`.  The first argument bounds the number of iterations. -/
def scanMarkers : Nat → Reader → Outcome
  | 0, _ => .outOfFuel
  | fuel + 1, r =>
    match readUint16 .BigEndian r with
    | none => .unspecified
    | some (marker, r1) =>
      match readUint16 .BigEndian r1 with
      | none => .unspecified
      | some (size, r2) =>
        if marker / 256 ≠ 0xff then .unspecified
        else if marker = markerAPP1 then parseExif r2
        else if size < 2 then .unspecified
        else
          -- `size - 2` does not wrap: `size ≥ 2` here
          match copyN (size - 2) r2 with
          | none => .unspecified
          | some r3 => scanMarkers fuel r3

/-- The body of `readOrientation` with at most `fuel` iterations of the marker loop. -/
def readOrientationFuel (fuel : Nat) (r : Reader) : Outcome :=
  match readUint16 .BigEndian r with
  | none => .unspecified
  | some (soi, r1) =>
    if soi ≠ markerSOI then .unspecified
    else scanMarkers fuel r1

/-- A run of `readOrientation` on the stream `r`.  Every iteration of the marker loop
consumes at least 4 bytes, so `r.length + 1` iterations are never used up
(`run_ne_outOfFuel`). -/
def run (r : Reader) : Outcome :=
  readOrientationFuel (r.length + 1) r

/-- The value `readOrientation(reader)` returns on the stream `r`. -/
def readOrientation (r : Reader) : Option Nat :=
  (run r).value

/-- The number of bytes a run that ends in `return orientation(direction)` has
consumed. -/
def consumed (r : Reader) : Option Nat :=
  match run r with
  | .found _ rest => some (r.length - rest.length)
  | _ => none

/-- A run that ends in `return orientation(direction)` has `direction` in 1..8. -/
def Outcome.InRange : Outcome → Prop
  | .found direction _ => 1 ≤ direction ∧ direction ≤ 8
  | _ => True

/-! ## The shapes of streams the specification speaks of -/

/-- A JPEG marker segment: the marker `FF m`, the two bytes of the big-endian size
field and the payload. -/
structure Segment where
  m : Byte
  s0 : Byte
  s1 : Byte
  payload : List Byte
deriving DecidableEq

/-- The bytes of a segment, in stream order. -/
def Segment.bytes (g : Segment) : List Byte :=
  0xFF :: g.m :: g.s0 :: g.s1 :: g.payload

/-- The value of the size field of a segment. -/
def Segment.size (g : Segment) : Nat :=
  g.s0.val * 256 + g.s1.val

/-- A well-formed segment that is not APP1: the marker is not `FF E1`, the size is at
least 2 and the payload has `size - 2` bytes. -/
def Segment.WellFormed (g : Segment) : Prop :=
  g.m ≠ 0xE1 ∧ 2 ≤ g.size ∧ g.payload.length + 2 = g.size

instance (g : Segment) : Decidable g.WellFormed := by
  unfold Segment.WellFormed; infer_instance

/-- The bytes of a sequence of segments. -/
def segmentsBytes : List Segment → List Byte
  | [] => []
  | g :: gs => g.bytes ++ segmentsBytes gs

/-- A 12-byte directory entry: the two bytes of the tag id and the 10 bytes after. -/
structure Entry where
  t0 : Byte
  t1 : Byte
  body : List Byte
deriving DecidableEq

/-- The bytes of a directory entry, in stream order. -/
def Entry.bytes (e : Entry) : List Byte :=
  e.t0 :: e.t1 :: e.body

/-- A 12-byte entry whose first two bytes are not `01 12`. -/
def Entry.Other (e : Entry) : Prop :=
  e.body.length = 10 ∧ ¬(e.t0 = 0x01 ∧ e.t1 = 0x12)

instance (e : Entry) : Decidable e.Other := by
  unfold Entry.Other; infer_instance

/-- The bytes of a sequence of directory entries. -/
def entriesBytes : List Entry → List Byte
  | [] => []
  | e :: es => e.bytes ++ entriesBytes es

/-- The byte-order tag of a byte order: `MM` or `II`. -/
def ByteOrder.mark : ByteOrder → List Byte
  | .BigEndian => [0x4D, 0x4D]
  | .LittleEndian => [0x49, 0x49]

/-- The bytes of a stream up to the directory: `FF D8`, segments, the marker `FF E1`
with its size bytes `z0 z1`, `Exif`, two padding bytes, the byte-order tag, two bytes of
magic number, the four offset bytes and the bytes between the header and the
directory. -/
structure Preamble where
  segs : List Segment
  z0 : Byte
  z1 : Byte
  p0 : Byte
  p1 : Byte
  order : ByteOrder
  g0 : Byte
  g1 : Byte
  o0 : Byte
  o1 : Byte
  o2 : Byte
  o3 : Byte
  gap : List Byte
deriving DecidableEq

/-- The bytes of a preamble, in stream order. -/
def Preamble.bytes (p : Preamble) : List Byte :=
  [0xFF, 0xD8] ++ (segmentsBytes p.segs ++ ([0xFF, 0xE1, p.z0, p.z1] ++
    ([0x45, 0x78, 0x69, 0x66] ++ ([p.p0, p.p1] ++ (p.order.mark ++ ([p.g0, p.g1] ++
      ([p.o0, p.o1, p.o2, p.o3] ++ p.gap)))))))

/-- The four offset bytes of a preamble decoded big-endian, as line 114 does. -/
def Preamble.offsetBE (p : Preamble) : Nat :=
  ByteOrder.BigEndian.uint32 p.o0 p.o1 p.o2 p.o3

/-- The four offset bytes of a preamble decoded in the byte order of its tag. -/
def Preamble.offset (p : Preamble) : Nat :=
  p.order.uint32 p.o0 p.o1 p.o2 p.o3

/-- The segments are well-formed and not APP1, the big-endian offset is at least 8
and `gap` holds the `offset - 8` bytes that are skipped. -/
def Preamble.WellFormed (p : Preamble) : Prop :=
  (∀ g ∈ p.segs, g.WellFormed) ∧ 8 ≤ p.offsetBE ∧ p.gap.length + 8 = p.offsetBE

instance (p : Preamble) : Decidable p.WellFormed := by
  unfold Preamble.WellFormed; infer_instance

/-- The range check of lines 155-159 on a value read: the value itself when it lies
in 1..8, `orientationUnspecified` otherwise. -/
def checked (v : Nat) : Nat :=
  if 1 ≤ v ∧ v ≤ 8 then v else orientationUnspecified

/-- The preamble of Scenario A: no segment before APP1, byte order `MM`, offset 8. -/
def preambleA : Preamble :=
  { segs := [], z0 := 0x00, z1 := 0x1A, p0 := 0x00, p1 := 0x00, order := .BigEndian,
    g0 := 0x00, g1 := 0x2A, o0 := 0x00, o1 := 0x00, o2 := 0x00, o3 := 0x08, gap := [] }

/-- Scenario B of the specification, with the size bytes `z0 z1`, the magic bytes
`g0 g1` and the six type and count bytes left open: byte order `II`, offset 8, tag count 1
and value 3 stored little-endian. -/
def scenarioB (z0 z1 g0 g1 b0 b1 b2 b3 b4 b5 : Byte) : Reader :=
  [0xFF, 0xD8, 0xFF, 0xE1, z0, z1, 0x45, 0x78, 0x69, 0x66, 0x00, 0x00,
   0x49, 0x49, g0, g1, 0x08, 0x00, 0x00, 0x00, 0x01, 0x00,
   0x01, 0x12, b0, b1, b2, b3, b4, b5, 0x03, 0x00]

/-- A preamble with byte order `II` whose offset bytes `01 00 00 00` mean 1 when decoded
little-endian and 16777216 when decoded big-endian, followed by the bytes `gap`. -/
def preambleSmallOffset (gap : List Byte) : Preamble :=
  { segs := [], z0 := 0x00, z1 := 0x1A, p0 := 0x00, p1 := 0x00, order := .LittleEndian,
    g0 := 0x2A, g1 := 0x00, o0 := 0x01, o1 := 0x00, o2 := 0x00, o3 := 0x00, gap := gap }

/-- A directory of one orientation entry with the value bytes `00 03`, the tag count
stored little-endian. -/
def directorySmallOffset : List Byte :=
  [0x01, 0x00, 0x01, 0x12, 0x03, 0x00, 0x01, 0x00, 0x00, 0x00, 0x00, 0x03]

/-- The marker loop on the stream `r`, with more iterations allowed than it can use. -/
def scan (r : Reader) : Outcome :=
  scanMarkers (r.length + 1) r

/-- Scenario A of the specification. -/
def scenarioA : Reader :=
  [0xFF, 0xD8, 0xFF, 0xE1, 0x00, 0x1A, 0x45, 0x78, 0x69, 0x66, 0x00, 0x00,
   0x4D, 0x4D, 0x00, 0x2A, 0x00, 0x00, 0x00, 0x08, 0x00, 0x01,
   0x01, 0x12, 0x00, 0x03, 0x00, 0x00, 0x00, 0x01, 0x00, 0x03, 0x00, 0x00]

/-- A preamble with byte order `II` whose offset bytes `08 00 00 00` mean 8 when decoded
little-endian, with no byte between the header and the directory. -/
def preambleLE8 : Preamble :=
  { segs := [], z0 := 0x00, z1 := 0x1A, p0 := 0x00, p1 := 0x00, order := .LittleEndian,
    g0 := 0x2A, g1 := 0x00, o0 := 0x08, o1 := 0x00, o2 := 0x00, o3 := 0x00, gap := [] }

/-- A preamble with byte order `II` whose offset bytes `00 00 00 08` are 8 as line 114
reads them, with no byte between the header and the directory. -/
def preambleLE : Preamble :=
  { segs := [], z0 := 0x00, z1 := 0x1A, p0 := 0x00, p1 := 0x00, order := .LittleEndian,
    g0 := 0x2A, g1 := 0x00, o0 := 0x00, o1 := 0x00, o2 := 0x00, o3 := 0x08, gap := [] }

/-- A directory of one orientation entry, the tag count and the value 3 stored
little-endian (`03 00`). -/
def directoryLE : List Byte :=
  [0x01, 0x00, 0x01, 0x12, 0x03, 0x00, 0x01, 0x00, 0x00, 0x00, 0x03, 0x00, 0x00, 0x00]

/-- A directory that counts two orientation entries, stored little-endian: the first
with the value bytes `03 00`, the second with the value bytes `00 03`. -/
def directoryTwoEntries : List Byte :=
  [0x02, 0x00,
   0x01, 0x12, 0x03, 0x00, 0x01, 0x00, 0x00, 0x00, 0x03, 0x00, 0x00, 0x00,
   0x01, 0x12, 0x03, 0x00, 0x01, 0x00, 0x00, 0x00, 0x00, 0x03, 0x00, 0x00]

/-- A directory entry with the tag id `01 0F` and ten zero bytes. -/
def entryMake : Entry :=
  ⟨0x01, 0x0F, [0x00, 0x00, 0x00, 0x00, 0x00, 0x00, 0x00, 0x00, 0x00, 0x00]⟩

/-- How one iteration of the marker loop ends. -/
inductive MarkerStep where
  /-- The end of the body is reached and the loop goes on, with the reader as it is. -/
  | next (r : Reader)
  /-- The statement `break`, at the marker APP1. -/
  | app1 (r : Reader)
  /-- One of the statements `return orientationUnspecified`. -/
  | unspecified
deriving DecidableEq

/-- The body of the marker loop, lines 57-79. -/
def markerStep (r : Reader) : MarkerStep :=
  match readUint16 .BigEndian r with
  | none => .unspecified
  | some (marker, r1) =>
    match readUint16 .BigEndian r1 with
    | none => .unspecified
    | some (size, r2) =>
      if marker / 256 ≠ 0xff then .unspecified
      else if marker = markerAPP1 then .app1 r2
      else if size < 2 then .unspecified
      else
        match copyN (size - 2) r2 with
        | none => .unspecified
        | some r3 => .next r3

/-- How one iteration of the tag loop ends. -/
inductive TagStep where
  /-- The statement `continue`, with the reader as it is. -/
  | next (r : Reader)
  /-- One of the `return` statements. -/
  | done (o : Outcome)
deriving DecidableEq

/-- The body of the tag loop, lines 132-159. -/
def tagStep (r : Reader) : TagStep :=
  match readUint16 .BigEndian r with
  | none => .done .unspecified
  | some (tag, r1) =>
    if tag ≠ orientationTag then
      match copyN 10 r1 with
      | none => .done .unspecified
      | some r2 => .next r2
    else
      match copyN 6 r1 with
      | none => .done .unspecified
      | some r2 =>
        match readUint16 .BigEndian r2 with
        | none => .done .unspecified
        | some (direction, r3) =>
          if direction < 1 ∨ direction > 8 then .done .unspecified
          else .done (.found direction r3)

/-! ## `Encode` (`image.go`) and `Close` (`fs.go`) -/

/-- The state of an `io.Writer`: the bytes written to it so far. -/
abbrev Writer := List Byte

/-- The image codec the package calls, over a type of images and a type of errors. -/
structure Codec (Image Err : Type) where
  /-- Models `jpeg.Encode(w, img, &jpeg.Options{Quality: quality})`: the writer after the
  call and the error returned, `none` for `nil`. -/
  jpegEncode : Writer → Image → Int → Writer × Option Err
  /-- Models the test `img.(*image.NRGBA)` with `nrgba.Opaque()`: when both hold, the
  `image.RGBA` built from the same `Pix`, `Stride` and `Rect`. -/
  opaqueRGBA : Image → Option Image

/-- The branch of `Encode` for `jpg` and `jpeg`, lines 38-46. -/
def encodeJpeg {Image Err : Type} (c : Codec Image Err) (w : Writer) (img : Image)
    (quality : Int) : Writer × Option Err :=
  match c.opaqueRGBA img with
  | some rgba => c.jpegEncode w rgba quality
  | none => c.jpegEncode w img quality

/-- Models `Encode(w, img, t, quality)`: the writer after the call and the error
returned.  The default case prints to the standard error stream, not to `w`. -/
def Encode {Image Err : Type} (c : Codec Image Err) (w : Writer) (img : Image) (t : String)
    (quality : Int) : Writer × Option Err :=
  if t = "jpg" then encodeJpeg c w img quality
  else if t = "jpeg" then encodeJpeg c w img quality
  else (w, none)

/-- The loop of `path.Ext`, from the last character backwards: the first argument holds
the characters not yet visited, last first, the second the characters already visited. -/
def extLoop : List Char → List Char → List Char
  | [], _ => []
  | c :: cs, seen =>
    if c = '/' then []
    else if c = '.' then c :: seen
    else extLoop cs (c :: seen)

/-- Models `path.Ext(path)`: the suffix that begins at the last dot of the last
slash-separated element, empty when that element has no dot. -/
def pathExt (path : String) : String :=
  String.mk (extLoop path.data.reverse [])

/-- Models `strings.ReplaceAll(s, ".", "")`: `s` without its dots. -/
def removeDots (s : String) : String :=
  String.mk (s.data.filter (fun c => c ≠ '.'))

/-- The value of the interface `FileSystem` that `Close` uses. -/
structure FileSystem (Err : Type) where
  /-- Models `fs.Create(filename)`: the file as a writer, or the error. -/
  create : String → Except Err Writer
  /-- Models `file.Close()` on the file of that name with those bytes written. -/
  closeFile : String → Writer → Option Err

/-- Models `Close(img, filename, quality)`: the error returned, `none` for `nil`. -/
def Close {Image Err : Type} (c : Codec Image Err) (fs : FileSystem Err) (img : Image)
    (filename : String) (quality : Int) : Option Err :=
  match fs.create filename with
  | .error err => some err
  | .ok file =>
    match Encode c file img (removeDots (pathExt filename)) quality with
    | (_, some err) => some err
    | (file1, none) => fs.closeFile filename file1

/-- A codec whose `jpeg.Encode` writes one byte and fails. -/
def failingCodec : Codec Unit String :=
  { jpegEncode := fun w _ _ => (w ++ [0xFF], some "jpeg"), opaqueRGBA := fun _ => none }

/-- A file system whose files are created empty and closed without error. -/
def plainFileSystem : FileSystem String :=
  { create := fun _ => .ok [], closeFile := fun _ _ => none }

/-! ## Lemmas on the reader primitives -/

theorem readUint16_length {order : ByteOrder} {r r1 : Reader} {v : Nat}
    (h : readUint16 order r = some (v, r1)) : r.length = r1.length + 2 := by
  match r, h with
  | _ :: _ :: rest, h =>
    simp only [readUint16, Option.some.injEq, Prod.mk.injEq] at h
    rw [← h.2]; rfl

theorem readUint16_append {order : ByteOrder} {r r1 : Reader} {v : Nat}
    (h : readUint16 order r = some (v, r1)) (t : Reader) :
    readUint16 order (r ++ t) = some (v, r1 ++ t) := by
  match r, h with
  | b0 :: b1 :: rest, h =>
    simp only [readUint16, Option.some.injEq, Prod.mk.injEq] at h
    rw [← h.1, ← h.2]; rfl

theorem readUint16_lt {order : ByteOrder} {r r1 : Reader} {v : Nat}
    (h : readUint16 order r = some (v, r1)) : v < 65536 := by
  match r, h with
  | b0 :: b1 :: rest, h =>
    simp only [readUint16, Option.some.injEq, Prod.mk.injEq] at h
    have h0 := b0.isLt
    have h1 := b1.isLt
    rw [← h.1]
    cases order <;> simp only [ByteOrder.uint16] <;> omega

theorem readUint16_eq_none {order : ByteOrder} {r : Reader} (h : r.length < 2) :
    readUint16 order r = none := by
  match r, h with
  | [], _ => rfl
  | [_], _ => rfl
  | _ :: _ :: _, h => exact absurd h (by simp only [List.length_cons]; omega)

theorem readUint32_length {order : ByteOrder} {r r1 : Reader} {v : Nat}
    (h : readUint32 order r = some (v, r1)) : r.length = r1.length + 4 := by
  match r, h with
  | _ :: _ :: _ :: _ :: rest, h =>
    simp only [readUint32, Option.some.injEq, Prod.mk.injEq] at h
    rw [← h.2]; rfl

theorem readUint32_append {order : ByteOrder} {r r1 : Reader} {v : Nat}
    (h : readUint32 order r = some (v, r1)) (t : Reader) :
    readUint32 order (r ++ t) = some (v, r1 ++ t) := by
  match r, h with
  | b0 :: b1 :: b2 :: b3 :: rest, h =>
    simp only [readUint32, Option.some.injEq, Prod.mk.injEq] at h
    rw [← h.1, ← h.2]; rfl

theorem copyN_length {n : Nat} {r r1 : Reader} (h : copyN n r = some r1) :
    r.length = r1.length + n := by
  unfold copyN at h
  split at h
  · simp only [Option.some.injEq] at h
    rw [← h, List.length_drop]; omega
  · exact absurd h (by simp)

theorem copyN_append {n : Nat} {r r1 : Reader} (h : copyN n r = some r1) (t : Reader) :
    copyN n (r ++ t) = some (r1 ++ t) := by
  unfold copyN at h ⊢
  split at h
  · rename_i hn
    simp only [Option.some.injEq] at h
    have hle : n ≤ (r ++ t).length := by rw [List.length_append]; omega
    rw [if_pos hle, ← h, List.drop_append_of_le_length hn]
  · exact absurd h (by simp)

theorem copyN_append_left (xs rest : Reader) : copyN xs.length (xs ++ rest) = some rest := by
  unfold copyN
  rw [if_pos (by rw [List.length_append]; omega), List.drop_left]

theorem copyN_eq_none {n : Nat} {r : Reader} (h : r.length < n) : copyN n r = none := by
  unfold copyN
  rw [if_neg (by omega)]

/-! ## The iterations allowed to the marker loop are never used up -/

theorem walkTags_ne_outOfFuel (n : Nat) (r : Reader) : walkTags n r ≠ .outOfFuel := by
  induction n generalizing r with
  | zero => simp [walkTags]
  | succ n ih =>
    unfold walkTags
    split
    · simp
    · split
      · split
        · simp
        · exact ih _
      · split
        · simp
        · split
          · simp
          · split <;> simp

theorem walkIFD0_ne_outOfFuel (order : ByteOrder) (r : Reader) :
    walkIFD0 order r ≠ .outOfFuel := by
  unfold walkIFD0
  split
  · simp
  · exact walkTags_ne_outOfFuel _ _

theorem parseExif_ne_outOfFuel (r : Reader) : parseExif r ≠ .outOfFuel := by
  unfold parseExif
  repeat' split
  all_goals first | exact walkIFD0_ne_outOfFuel _ _ | simp

/-- The outcome of the marker loop does not depend on the number of iterations allowed,
once that number exceeds the length of the stream. -/
theorem scanMarkers_fuel (f g : Nat) (r : Reader) (hf : r.length < f) (hg : r.length < g) :
    scanMarkers f r = scanMarkers g r := by
  induction f generalizing g r with
  | zero => omega
  | succ f ih =>
    cases g with
    | zero => omega
    | succ g =>
      cases h1 : readUint16 .BigEndian r with
      | none => simp only [scanMarkers, h1]
      | some p1 =>
        obtain ⟨marker, r1⟩ := p1
        cases h2 : readUint16 .BigEndian r1 with
        | none => simp only [scanMarkers, h1, h2]
        | some p2 =>
          obtain ⟨size, r2⟩ := p2
          cases h3 : copyN (size - 2) r2 with
          | none => simp only [scanMarkers, h1, h2, h3]
          | some r3 =>
            have l1 := readUint16_length h1
            have l2 := readUint16_length h2
            have l3 := copyN_length h3
            simp only [scanMarkers, h1, h2, h3]
            rw [ih g r3 (by omega) (by omega)]

theorem scanMarkers_ne_outOfFuel (f : Nat) (r : Reader) (hf : r.length < f) :
    scanMarkers f r ≠ .outOfFuel := by
  induction f generalizing r with
  | zero => omega
  | succ f ih =>
    cases h1 : readUint16 .BigEndian r with
    | none => simp [scanMarkers, h1]
    | some p1 =>
      obtain ⟨marker, r1⟩ := p1
      cases h2 : readUint16 .BigEndian r1 with
      | none => simp [scanMarkers, h1, h2]
      | some p2 =>
        obtain ⟨size, r2⟩ := p2
        simp only [scanMarkers, h1, h2]
        split
        · simp
        · split
          · exact parseExif_ne_outOfFuel _
          · split
            · simp
            · cases h3 : copyN (size - 2) r2 with
              | none => simp
              | some r3 =>
                have l1 := readUint16_length h1
                have l2 := readUint16_length h2
                have l3 := copyN_length h3
                exact ih r3 (by omega)

/-- A run of `readOrientation` always finishes within the iterations `run` allows. -/
theorem run_ne_outOfFuel (r : Reader) : run r ≠ .outOfFuel := by
  cases h1 : readUint16 .BigEndian r with
  | none => simp [run, readOrientationFuel, h1]
  | some p1 =>
    obtain ⟨soi, r1⟩ := p1
    simp only [run, readOrientationFuel, h1]
    split
    · simp
    · have l1 := readUint16_length h1
      exact scanMarkers_ne_outOfFuel _ _ (by omega)

/-! ## The stages of the parse on streams of a known shape -/

theorem scan_eq (f : Nat) (r : Reader) (hf : r.length < f) : scanMarkers f r = scan r :=
  scanMarkers_fuel f (r.length + 1) r hf (Nat.lt_succ_self _)

theorem readUint16_cons (order : ByteOrder) (a b : Byte) (rest : Reader) :
    readUint16 order (a :: b :: rest) = some (order.uint16 a b, rest) := rfl

theorem readUint32_cons (order : ByteOrder) (a b c d : Byte) (rest : Reader) :
    readUint32 order (a :: b :: c :: d :: rest) = some (order.uint32 a b c d, rest) := rfl

/-- After the start-of-image marker the marker loop is entered. -/
theorem run_soi (r : Reader) : run (0xFF :: 0xD8 :: r) = scan r := by
  have h : readUint16 .BigEndian (0xFF :: 0xD8 :: r) = some (markerSOI, r) := rfl
  simp only [run, readOrientationFuel, h, ne_eq, not_true_eq_false, if_false]
  exact scan_eq _ _ (by simp only [List.length_cons]; omega)

/-- Without the start-of-image marker the function returns at once. -/
theorem run_not_soi (r : Reader) (h : r.take 2 ≠ [0xFF, 0xD8]) : run r = .unspecified := by
  match r, h with
  | [], _ => rfl
  | [_], _ => rfl
  | a :: b :: rest, h =>
    simp only [run, readOrientationFuel, readUint16_cons]
    rw [if_pos]
    intro hs
    apply h
    have ha := a.isLt
    have hb := b.isLt
    simp only [ByteOrder.uint16, markerSOI] at hs
    have h1 : a = 0xFF := Fin.ext (by show a.val = 255; omega)
    have h2 : b = 0xD8 := Fin.ext (by show b.val = 216; omega)
    rw [h1, h2]; rfl

/-- One iteration of the marker loop, on a stream of at least 4 bytes. -/
theorem scan_cons (a b c d : Byte) (rest : Reader) :
    scan (a :: b :: c :: d :: rest) =
      if (a.val * 256 + b.val) / 256 ≠ 0xff then .unspecified
      else if a.val * 256 + b.val = markerAPP1 then parseExif rest
      else if c.val * 256 + d.val < 2 then .unspecified
      else
        match copyN (c.val * 256 + d.val - 2) rest with
        | none => .unspecified
        | some r3 => scan r3 := by
  have hs : scan (a :: b :: c :: d :: rest) =
      scanMarkers (rest.length + 4 + 1) (a :: b :: c :: d :: rest) := rfl
  rw [hs, scanMarkers]
  cases h3 : copyN (c.val * 256 + d.val - 2) rest with
  | none => simp only [readUint16_cons, ByteOrder.uint16, h3]
  | some r3 =>
    have l3 := copyN_length h3
    simp only [readUint16_cons, ByteOrder.uint16, h3]
    rw [scan_eq _ r3 (by omega)]

theorem scan_short (r : Reader) (h : r.length < 4) : scan r = .unspecified := by
  match r, h with
  | [], _ => rfl
  | [_], _ => rfl
  | [_, _], _ => rfl
  | [_, _, _], _ => rfl
  | _ :: _ :: _ :: _ :: _, h => exact absurd h (by simp only [List.length_cons]; omega)

/-- The marker loop is left by `break` at the marker `FF E1`, whatever its size field. -/
theorem scan_app1 (z0 z1 : Byte) (rest : Reader) :
    scan (0xFF :: 0xE1 :: z0 :: z1 :: rest) = parseExif rest := by
  rw [scan_cons]
  have h : ((0xFF : Byte).val * 256 + (0xE1 : Byte).val) = markerAPP1 := rfl
  rw [h, if_neg (by decide), if_pos rfl]

/-- The marker loop steps over a well-formed segment that is not APP1. -/
theorem scan_segment (g : Segment) (hg : g.WellFormed) (rest : Reader) :
    scan (g.bytes ++ rest) = scan rest := by
  obtain ⟨hm, h2, hlen⟩ := hg
  have hb := g.m.isLt
  have hff : (0xFF : Byte).val = 255 := rfl
  have hne : g.m.val ≠ 225 := fun h => hm (Fin.ext h)
  simp only [Segment.size] at h2 hlen
  show scan (0xFF :: g.m :: g.s0 :: g.s1 :: (g.payload ++ rest)) = scan rest
  rw [scan_cons, hff, if_neg (by omega), if_neg (by simp only [markerAPP1]; omega),
    if_neg (by omega)]
  have hc : copyN (g.s0.val * 256 + g.s1.val - 2) (g.payload ++ rest) = some rest := by
    rw [← hlen, Nat.add_sub_cancel]
    exact copyN_append_left _ _
  rw [hc]

theorem scan_segments (gs : List Segment) (hgs : ∀ g ∈ gs, g.WellFormed) (rest : Reader) :
    scan (segmentsBytes gs ++ rest) = scan rest := by
  induction gs with
  | nil => rfl
  | cons g gs ih =>
    simp only [segmentsBytes, List.append_assoc]
    rw [scan_segment g (hgs g (List.mem_cons_self _ _))]
    exact ih (fun g' hg' => hgs g' (List.mem_cons_of_mem _ hg'))

theorem copyN_cons2 (a b : Byte) (rest : Reader) : copyN 2 (a :: b :: rest) = some rest := by
  simp [copyN]

/-- The header of the EXIF block, on a stream of at least 14 bytes. -/
theorem parseExif_cons (h0 h1 h2 h3 p0 p1 t0 t1 g0 g1 o0 o1 o2 o3 : Byte) (rest : Reader) :
    parseExif (h0 :: h1 :: h2 :: h3 :: p0 :: p1 :: t0 :: t1 :: g0 :: g1 ::
        o0 :: o1 :: o2 :: o3 :: rest) =
      if ByteOrder.BigEndian.uint32 h0 h1 h2 h3 ≠ exifHeader then .unspecified
      else
        match (if ByteOrder.BigEndian.uint16 t0 t1 = byteOrderBE then some ByteOrder.BigEndian
               else if ByteOrder.BigEndian.uint16 t0 t1 = byteOrderLE
                 then some ByteOrder.LittleEndian
               else none) with
        | none => .unspecified
        | some byteOrder =>
          if ByteOrder.BigEndian.uint32 o0 o1 o2 o3 < 8 then .unspecified
          else
            match copyN (ByteOrder.BigEndian.uint32 o0 o1 o2 o3 - 8) rest with
            | none => .unspecified
            | some r6 => walkIFD0 byteOrder r6 := by
  simp only [parseExif, readUint32_cons, readUint16_cons, copyN_cons2]

theorem mark_uint16 (order : ByteOrder) (rest : Reader) :
    ∃ t0 t1 : Byte, order.mark ++ rest = t0 :: t1 :: rest ∧
      (if ByteOrder.BigEndian.uint16 t0 t1 = byteOrderBE then some ByteOrder.BigEndian
       else if ByteOrder.BigEndian.uint16 t0 t1 = byteOrderLE then some ByteOrder.LittleEndian
       else none) = some order := by
  cases order
  · exact ⟨0x4D, 0x4D, rfl, rfl⟩
  · exact ⟨0x49, 0x49, rfl, rfl⟩

/-- A well-formed preamble brings the parse to the directory, with the byte order of its
byte-order tag. -/
theorem run_preamble (p : Preamble) (hp : p.WellFormed) (rest : Reader) :
    run (p.bytes ++ rest) = walkIFD0 p.order rest := by
  obtain ⟨hsegs, h8, hgap⟩ := hp
  obtain ⟨t0, t1, hmark, hord⟩ := mark_uint16 p.order
    (p.g0 :: p.g1 :: p.o0 :: p.o1 :: p.o2 :: p.o3 :: (p.gap ++ rest))
  have hshape : p.bytes ++ rest = 0xFF :: 0xD8 :: (segmentsBytes p.segs ++
      (0xFF :: 0xE1 :: p.z0 :: p.z1 :: 0x45 :: 0x78 :: 0x69 :: 0x66 :: p.p0 :: p.p1 ::
        t0 :: t1 :: p.g0 :: p.g1 :: p.o0 :: p.o1 :: p.o2 :: p.o3 :: (p.gap ++ rest))) := by
    rw [← hmark]
    simp only [Preamble.bytes, List.append_assoc, List.cons_append, List.nil_append]
  rw [hshape, run_soi, scan_segments _ hsegs, scan_app1, parseExif_cons, hord]
  have hex : ByteOrder.BigEndian.uint32 0x45 0x78 0x69 0x66 = exifHeader := rfl
  simp only [Preamble.offsetBE] at h8 hgap
  have hn8 : ¬ ByteOrder.BigEndian.uint32 p.o0 p.o1 p.o2 p.o3 < 8 := by omega
  have hc : copyN (ByteOrder.BigEndian.uint32 p.o0 p.o1 p.o2 p.o3 - 8) (p.gap ++ rest)
      = some rest := by
    rw [← hgap, Nat.add_sub_cancel]
    exact copyN_append_left _ _
  simp only [hex, ne_eq, not_true_eq_false, if_false, hn8, hc]

/-- The tag loop steps over a 12-byte entry whose first two bytes are not `01 12`. -/
theorem walkTags_other (n : Nat) (e : Entry) (he : e.Other) (rest : Reader) :
    walkTags (n + 1) (e.bytes ++ rest) = walkTags n rest := by
  obtain ⟨hlen, hne⟩ := he
  have h0 := e.t0.isLt
  have h1 := e.t1.isLt
  have htag : ByteOrder.BigEndian.uint16 e.t0 e.t1 ≠ orientationTag := by
    intro h
    simp only [ByteOrder.uint16, orientationTag] at h
    exact hne ⟨Fin.ext (by show e.t0.val = 1; omega), Fin.ext (by show e.t1.val = 18; omega)⟩
  have hc : copyN 10 (e.body ++ rest) = some rest := by
    rw [← hlen]; exact copyN_append_left _ _
  show walkTags (n + 1) (e.t0 :: e.t1 :: (e.body ++ rest)) = walkTags n rest
  rw [walkTags, readUint16_cons]
  simp only [htag, ne_eq, not_false_eq_true, if_true, hc]

theorem walkTags_others (n : Nat) (es : List Entry) (hes : ∀ e ∈ es, e.Other) (rest : Reader) :
    walkTags (es.length + n) (entriesBytes es ++ rest) = walkTags n rest := by
  induction es with
  | nil => simp [entriesBytes]
  | cons e es ih =>
    have hn : (e :: es).length + n = (es.length + n) + 1 := by
      simp only [List.length_cons]; omega
    simp only [entriesBytes, List.append_assoc]
    rw [hn, walkTags_other _ e (hes e (List.mem_cons_self _ _))]
    exact ih (fun e' he' => hes e' (List.mem_cons_of_mem _ he'))

/-- The tag loop at an entry that begins `01 12`: six bytes are skipped, the next two are
read big-endian and checked against the range 1..8; nothing after them is read. -/
theorem walkTags_orientation (n : Nat) (six : List Byte) (h6 : six.length = 6) (v0 v1 : Byte)
    (rest : Reader) :
    walkTags (n + 1) (0x01 :: 0x12 :: (six ++ v0 :: v1 :: rest)) =
      if 1 ≤ v0.val * 256 + v1.val ∧ v0.val * 256 + v1.val ≤ 8
        then .found (v0.val * 256 + v1.val) rest
      else .unspecified := by
  have htag : ByteOrder.BigEndian.uint16 0x01 0x12 = orientationTag := rfl
  have hc : copyN 6 (six ++ v0 :: v1 :: rest) = some (v0 :: v1 :: rest) := by
    rw [← h6]; exact copyN_append_left _ _
  rw [walkTags, readUint16_cons, htag]
  simp only [ne_eq, not_true_eq_false, if_false, hc, readUint16_cons, ByteOrder.uint16]
  by_cases hv : 1 ≤ v0.val * 256 + v1.val ∧ v0.val * 256 + v1.val ≤ 8
  · have hv2 : ¬(v0.val * 256 + v1.val < 1 ∨ v0.val * 256 + v1.val > 8) := by omega
    rw [if_pos hv, if_neg hv2]
  · have hv2 : v0.val * 256 + v1.val < 1 ∨ v0.val * 256 + v1.val > 8 := by omega
    rw [if_neg hv, if_pos hv2]

/-- The header check: without the four bytes `Exif` the function returns at once. -/
theorem parseExif_not_exif (r : Reader) (h : r.take 4 ≠ [0x45, 0x78, 0x69, 0x66]) :
    parseExif r = .unspecified := by
  match r, h with
  | [], _ => rfl
  | [_], _ => rfl
  | [_, _], _ => rfl
  | [_, _, _], _ => rfl
  | a :: b :: c :: d :: rest, h =>
    have ha := a.isLt
    have hb := b.isLt
    have hc := c.isLt
    have hd := d.isLt
    have hne : ByteOrder.BigEndian.uint32 a b c d ≠ exifHeader := by
      intro he
      simp only [ByteOrder.uint32, exifHeader] at he
      apply h
      have h1 : a = 0x45 := Fin.ext (by show a.val = 69; omega)
      have h2 : b = 0x78 := Fin.ext (by show b.val = 120; omega)
      have h3 : c = 0x69 := Fin.ext (by show c.val = 105; omega)
      have h4 : d = 0x66 := Fin.ext (by show d.val = 102; omega)
      rw [h1, h2, h3, h4]; rfl
    rw [parseExif, readUint32_cons]
    simp only [hne, ne_eq, not_false_eq_true, if_true]

theorem run_smallOffset (gap : List Byte) (hgap : gap.length = 16777208) :
    run ((preambleSmallOffset gap).bytes ++ directorySmallOffset) = .found 3 [] := by
  have hoff0 : ByteOrder.BigEndian.uint32 0x01 0x00 0x00 0x00 = 16777216 := rfl
  have hoff : (preambleSmallOffset gap).offsetBE = 16777216 := hoff0
  have hg : (preambleSmallOffset gap).gap = gap := rfl
  have hwf : (preambleSmallOffset gap).WellFormed := by
    refine ⟨fun g hg => ?_, ?_, ?_⟩
    · exact absurd hg (List.not_mem_nil g)
    · rw [hoff]; omega
    · rw [hoff, hg, hgap]
  rw [run_preamble _ hwf]
  rfl

/-! ## The reader left by a run is a suffix of the stream -/

theorem readUint16_suffix {order : ByteOrder} {r r1 : Reader} {v : Nat}
    (h : readUint16 order r = some (v, r1)) : r1 <:+ r := by
  match r, h with
  | b0 :: b1 :: rest, h =>
    simp only [readUint16, Option.some.injEq, Prod.mk.injEq] at h
    rw [← h.2]
    exact ⟨[b0, b1], rfl⟩

theorem readUint32_suffix {order : ByteOrder} {r r1 : Reader} {v : Nat}
    (h : readUint32 order r = some (v, r1)) : r1 <:+ r := by
  match r, h with
  | b0 :: b1 :: b2 :: b3 :: rest, h =>
    simp only [readUint32, Option.some.injEq, Prod.mk.injEq] at h
    rw [← h.2]
    exact ⟨[b0, b1, b2, b3], rfl⟩

theorem copyN_suffix {n : Nat} {r r1 : Reader} (h : copyN n r = some r1) : r1 <:+ r := by
  unfold copyN at h
  split at h
  · simp only [Option.some.injEq] at h
    rw [← h]
    exact List.drop_suffix n r
  · exact absurd h (by simp)

theorem walkTags_suffix {n : Nat} {r rest : Reader} {v : Nat}
    (h : walkTags n r = .found v rest) : rest <:+ r := by
  induction n generalizing r with
  | zero => simp [walkTags] at h
  | succ n ih =>
    cases h1 : readUint16 .BigEndian r with
    | none => simp [walkTags, h1] at h
    | some p1 =>
      obtain ⟨tag, r1⟩ := p1
      have s1 := readUint16_suffix h1
      by_cases htag : tag ≠ orientationTag
      · cases h2 : copyN 10 r1 with
        | none => simp [walkTags, h1, if_pos htag, h2] at h
        | some r2 =>
          simp only [walkTags, h1, if_pos htag, h2] at h
          exact ((ih h).trans (copyN_suffix h2)).trans s1
      · cases h2 : copyN 6 r1 with
        | none => simp [walkTags, h1, if_neg htag, h2] at h
        | some r2 =>
          cases h3 : readUint16 .BigEndian r2 with
          | none => simp [walkTags, h1, if_neg htag, h2, h3] at h
          | some p3 =>
            obtain ⟨direction, r3⟩ := p3
            simp only [walkTags, h1, if_neg htag, h2, h3] at h
            split at h
            · exact Outcome.noConfusion h
            · simp only [Outcome.found.injEq] at h
              rw [← h.2]
              exact ((readUint16_suffix h3).trans (copyN_suffix h2)).trans s1

theorem walkIFD0_suffix {order : ByteOrder} {r rest : Reader} {v : Nat}
    (h : walkIFD0 order r = .found v rest) : rest <:+ r := by
  cases h1 : readUint16 order r with
  | none => simp [walkIFD0, h1] at h
  | some p1 =>
    obtain ⟨numTags, r1⟩ := p1
    simp only [walkIFD0, h1] at h
    exact (walkTags_suffix h).trans (readUint16_suffix h1)

theorem parseExif_suffix {r rest : Reader} {v : Nat}
    (h : parseExif r = .found v rest) : rest <:+ r := by
  cases h1 : readUint32 .BigEndian r with
  | none => simp [parseExif, h1] at h
  | some p1 =>
  obtain ⟨header, r1⟩ := p1
  by_cases hh : header ≠ exifHeader
  · simp [parseExif, h1, if_pos hh] at h
  cases h2 : copyN 2 r1 with
  | none => simp [parseExif, h1, if_neg hh, h2] at h
  | some r2 =>
  cases h3 : readUint16 .BigEndian r2 with
  | none => simp [parseExif, h1, if_neg hh, h2, h3] at h
  | some p3 =>
  obtain ⟨byteOrderTag, r3⟩ := p3
  cases h4 : (if byteOrderTag = byteOrderBE then some ByteOrder.BigEndian
      else if byteOrderTag = byteOrderLE then some ByteOrder.LittleEndian else none) with
  | none => simp [parseExif, h1, if_neg hh, h2, h3, h4] at h
  | some byteOrder =>
  cases h5 : copyN 2 r3 with
  | none => simp [parseExif, h1, if_neg hh, h2, h3, h4, h5] at h
  | some r4 =>
  cases h6 : readUint32 .BigEndian r4 with
  | none => simp [parseExif, h1, if_neg hh, h2, h3, h4, h5, h6] at h
  | some p6 =>
  obtain ⟨offset, r5⟩ := p6
  by_cases ho : offset < 8
  · simp [parseExif, h1, if_neg hh, h2, h3, h4, h5, h6, if_pos ho] at h
  cases h7 : copyN (offset - 8) r5 with
  | none => simp [parseExif, h1, if_neg hh, h2, h3, h4, h5, h6, if_neg ho, h7] at h
  | some r6 =>
  simp only [parseExif, h1, if_neg hh, h2, h3, h4, h5, h6, if_neg ho, h7] at h
  exact ((((((walkIFD0_suffix h).trans (copyN_suffix h7)).trans (readUint32_suffix h6)).trans
    (copyN_suffix h5)).trans (readUint16_suffix h3)).trans (copyN_suffix h2)).trans
    (readUint32_suffix h1)

theorem scanMarkers_suffix {f : Nat} {r rest : Reader} {v : Nat}
    (h : scanMarkers f r = .found v rest) : rest <:+ r := by
  induction f generalizing r with
  | zero => simp [scanMarkers] at h
  | succ f ih =>
    cases h1 : readUint16 .BigEndian r with
    | none => simp [scanMarkers, h1] at h
    | some p1 =>
    obtain ⟨marker, r1⟩ := p1
    cases h2 : readUint16 .BigEndian r1 with
    | none => simp [scanMarkers, h1, h2] at h
    | some p2 =>
    obtain ⟨size, r2⟩ := p2
    have s12 := (readUint16_suffix h2).trans (readUint16_suffix h1)
    by_cases hm : marker / 256 ≠ 0xff
    · simp [scanMarkers, h1, h2, if_pos hm] at h
    by_cases ha : marker = markerAPP1
    · simp only [scanMarkers, h1, h2, if_neg hm, if_pos ha] at h
      exact (parseExif_suffix h).trans s12
    by_cases hs : size < 2
    · simp [scanMarkers, h1, h2, if_neg hm, if_neg ha, if_pos hs] at h
    cases h3 : copyN (size - 2) r2 with
    | none => simp [scanMarkers, h1, h2, if_neg hm, if_neg ha, if_neg hs, h3] at h
    | some r3 =>
    simp only [scanMarkers, h1, h2, if_neg hm, if_neg ha, if_neg hs, h3] at h
    exact ((ih h).trans (copyN_suffix h3)).trans s12

/-- The reader a run leaves behind is what remains of the stream after the bytes
consumed. -/
theorem run_suffix {r rest : Reader} {v : Nat} (h : run r = .found v rest) : rest <:+ r := by
  cases h1 : readUint16 .BigEndian r with
  | none => simp [run, readOrientationFuel, h1] at h
  | some p1 =>
  obtain ⟨soi, r1⟩ := p1
  by_cases hs : soi ≠ markerSOI
  · simp [run, readOrientationFuel, h1, if_pos hs] at h
  simp only [run, readOrientationFuel, h1, if_neg hs] at h
  exact (scanMarkers_suffix h).trans (readUint16_suffix h1)

/-- The bytes counted by `consumed` and the bytes left make up the stream. -/
theorem consumed_spec {r : Reader} {n : Nat} (h : consumed r = some n) :
    ∃ v rest, run r = .found v rest ∧ n + rest.length = r.length := by
  unfold consumed at h
  split at h
  · rename_i v rest hrun
    simp only [Option.some.injEq] at h
    have hl := (run_suffix hrun).length_le
    exact ⟨v, rest, hrun, by omega⟩
  · exact absurd h (by simp)

/-! ## Range of the result -/

theorem walkTags_inRange (n : Nat) (r : Reader) : (walkTags n r).InRange := by
  induction n generalizing r with
  | zero => simp [walkTags, Outcome.InRange]
  | succ n ih =>
    unfold walkTags
    split
    · simp [Outcome.InRange]
    · split
      · split
        · simp [Outcome.InRange]
        · exact ih _
      · split
        · simp [Outcome.InRange]
        · split
          · simp [Outcome.InRange]
          · split
            · simp [Outcome.InRange]
            · simp only [Outcome.InRange]; omega

theorem walkIFD0_inRange (order : ByteOrder) (r : Reader) : (walkIFD0 order r).InRange := by
  unfold walkIFD0
  split
  · simp [Outcome.InRange]
  · exact walkTags_inRange _ _

theorem parseExif_inRange (r : Reader) : (parseExif r).InRange := by
  unfold parseExif
  repeat' split
  all_goals first | exact walkIFD0_inRange _ _ | simp [Outcome.InRange]

theorem scanMarkers_inRange (f : Nat) (r : Reader) : (scanMarkers f r).InRange := by
  induction f generalizing r with
  | zero => simp [scanMarkers, Outcome.InRange]
  | succ f ih =>
    unfold scanMarkers
    repeat' split
    all_goals first | exact ih _ | exact parseExif_inRange _ | simp [Outcome.InRange]

theorem run_inRange (r : Reader) : (run r).InRange := by
  unfold run readOrientationFuel
  repeat' split
  all_goals first | exact scanMarkers_inRange _ _ | simp [Outcome.InRange]

/-! ## Bytes appended to a stream do not change a result already returned -/

theorem walkTags_append {n : Nat} {r rest : Reader} {v : Nat}
    (h : walkTags n r = .found v rest) (t : Reader) :
    walkTags n (r ++ t) = .found v (rest ++ t) := by
  induction n generalizing r with
  | zero => simp [walkTags] at h
  | succ n ih =>
    cases h1 : readUint16 .BigEndian r with
    | none => simp [walkTags, h1] at h
    | some p1 =>
      obtain ⟨tag, r1⟩ := p1
      have a1 := readUint16_append h1 t
      by_cases htag : tag ≠ orientationTag
      · cases h2 : copyN 10 r1 with
        | none => simp [walkTags, h1, if_pos htag, h2] at h
        | some r2 =>
          simp only [walkTags, h1, if_pos htag, h2] at h
          simp only [walkTags, a1, if_pos htag, copyN_append h2 t]
          exact ih h
      · cases h2 : copyN 6 r1 with
        | none => simp [walkTags, h1, if_neg htag, h2] at h
        | some r2 =>
          cases h3 : readUint16 .BigEndian r2 with
          | none => simp [walkTags, h1, if_neg htag, h2, h3] at h
          | some p3 =>
            obtain ⟨direction, r3⟩ := p3
            simp only [walkTags, h1, if_neg htag, h2, h3] at h
            simp only [walkTags, a1, if_neg htag, copyN_append h2 t, readUint16_append h3 t]
            split at h
            · exact Outcome.noConfusion h
            · rename_i hd
              rw [if_neg hd]
              simp only [Outcome.found.injEq] at h ⊢
              exact ⟨h.1, by rw [h.2]⟩

theorem walkIFD0_append {order : ByteOrder} {r rest : Reader} {v : Nat}
    (h : walkIFD0 order r = .found v rest) (t : Reader) :
    walkIFD0 order (r ++ t) = .found v (rest ++ t) := by
  cases h1 : readUint16 order r with
  | none => simp [walkIFD0, h1] at h
  | some p1 =>
    obtain ⟨numTags, r1⟩ := p1
    simp only [walkIFD0, h1] at h
    simp only [walkIFD0, readUint16_append h1 t]
    exact walkTags_append h t

theorem parseExif_append {r rest : Reader} {v : Nat}
    (h : parseExif r = .found v rest) (t : Reader) :
    parseExif (r ++ t) = .found v (rest ++ t) := by
  cases h1 : readUint32 .BigEndian r with
  | none => simp [parseExif, h1] at h
  | some p1 =>
  obtain ⟨header, r1⟩ := p1
  by_cases hh : header ≠ exifHeader
  · simp [parseExif, h1, if_pos hh] at h
  cases h2 : copyN 2 r1 with
  | none => simp [parseExif, h1, if_neg hh, h2] at h
  | some r2 =>
  cases h3 : readUint16 .BigEndian r2 with
  | none => simp [parseExif, h1, if_neg hh, h2, h3] at h
  | some p3 =>
  obtain ⟨byteOrderTag, r3⟩ := p3
  cases h4 : (if byteOrderTag = byteOrderBE then some ByteOrder.BigEndian
      else if byteOrderTag = byteOrderLE then some ByteOrder.LittleEndian else none) with
  | none => simp [parseExif, h1, if_neg hh, h2, h3, h4] at h
  | some byteOrder =>
  cases h5 : copyN 2 r3 with
  | none => simp [parseExif, h1, if_neg hh, h2, h3, h4, h5] at h
  | some r4 =>
  cases h6 : readUint32 .BigEndian r4 with
  | none => simp [parseExif, h1, if_neg hh, h2, h3, h4, h5, h6] at h
  | some p6 =>
  obtain ⟨offset, r5⟩ := p6
  by_cases ho : offset < 8
  · simp [parseExif, h1, if_neg hh, h2, h3, h4, h5, h6, if_pos ho] at h
  cases h7 : copyN (offset - 8) r5 with
  | none => simp [parseExif, h1, if_neg hh, h2, h3, h4, h5, h6, if_neg ho, h7] at h
  | some r6 =>
  simp only [parseExif, h1, if_neg hh, h2, h3, h4, h5, h6, if_neg ho, h7] at h
  simp only [parseExif, readUint32_append h1 t, if_neg hh, copyN_append h2 t,
    readUint16_append h3 t, h4, copyN_append h5 t, readUint32_append h6 t, if_neg ho,
    copyN_append h7 t]
  exact walkIFD0_append h t

theorem scanMarkers_append {f : Nat} {r rest : Reader} {v : Nat}
    (h : scanMarkers f r = .found v rest) (t : Reader) :
    scanMarkers f (r ++ t) = .found v (rest ++ t) := by
  induction f generalizing r with
  | zero => simp [scanMarkers] at h
  | succ f ih =>
    cases h1 : readUint16 .BigEndian r with
    | none => simp [scanMarkers, h1] at h
    | some p1 =>
    obtain ⟨marker, r1⟩ := p1
    cases h2 : readUint16 .BigEndian r1 with
    | none => simp [scanMarkers, h1, h2] at h
    | some p2 =>
    obtain ⟨size, r2⟩ := p2
    by_cases hm : marker / 256 ≠ 0xff
    · simp [scanMarkers, h1, h2, if_pos hm] at h
    by_cases ha : marker = markerAPP1
    · simp only [scanMarkers, h1, h2, if_neg hm, if_pos ha] at h
      simp only [scanMarkers, readUint16_append h1 t, readUint16_append h2 t, if_neg hm,
        if_pos ha]
      exact parseExif_append h t
    by_cases hs : size < 2
    · simp [scanMarkers, h1, h2, if_neg hm, if_neg ha, if_pos hs] at h
    cases h3 : copyN (size - 2) r2 with
    | none => simp [scanMarkers, h1, h2, if_neg hm, if_neg ha, if_neg hs, h3] at h
    | some r3 =>
    simp only [scanMarkers, h1, h2, if_neg hm, if_neg ha, if_neg hs, h3] at h
    simp only [scanMarkers, readUint16_append h1 t, readUint16_append h2 t, if_neg hm,
      if_neg ha, if_neg hs, copyN_append h3 t]
    exact ih h

/-- More iterations allowed do not change the outcome of a marker loop that was left. -/
theorem scanMarkers_mono {f g : Nat} {r : Reader} (hfg : f ≤ g)
    (h : scanMarkers f r ≠ .outOfFuel) : scanMarkers g r = scanMarkers f r := by
  induction f generalizing g r with
  | zero => simp [scanMarkers] at h
  | succ f ih =>
    cases g with
    | zero => omega
    | succ g =>
      cases h1 : readUint16 .BigEndian r with
      | none => simp only [scanMarkers, h1]
      | some p1 =>
      obtain ⟨marker, r1⟩ := p1
      cases h2 : readUint16 .BigEndian r1 with
      | none => simp only [scanMarkers, h1, h2]
      | some p2 =>
      obtain ⟨size, r2⟩ := p2
      cases h3 : copyN (size - 2) r2 with
      | none => simp only [scanMarkers, h1, h2, h3]
      | some r3 =>
      simp only [scanMarkers, h1, h2, h3] at h ⊢
      by_cases hm : marker / 256 ≠ 0xff
      · simp only [if_pos hm]
      by_cases ha : marker = markerAPP1
      · simp only [if_neg hm, if_pos ha]
      by_cases hs : size < 2
      · simp only [if_neg hm, if_neg ha, if_pos hs]
      simp only [if_neg hm, if_neg ha, if_neg hs] at h ⊢
      exact ih (by omega) h

/-- A run that returned a direction returns the same direction, at the same position,
when bytes are appended to the stream. -/
theorem run_append {r rest : Reader} {v : Nat} (h : run r = .found v rest) (t : Reader) :
    run (r ++ t) = .found v (rest ++ t) := by
  cases h1 : readUint16 .BigEndian r with
  | none => simp [run, readOrientationFuel, h1] at h
  | some p1 =>
  obtain ⟨soi, r1⟩ := p1
  by_cases hs : soi ≠ markerSOI
  · simp [run, readOrientationFuel, h1, if_pos hs] at h
  simp only [run, readOrientationFuel, h1, if_neg hs] at h
  simp only [run, readOrientationFuel, readUint16_append h1 t, if_neg hs]
  have ha := scanMarkers_append h t
  have hne : scanMarkers (r.length + 1) (r1 ++ t) ≠ .outOfFuel := by rw [ha]; simp
  rw [scanMarkers_mono (by rw [List.length_append]; omega) hne, ha]

/-- The directory walk on a directory whose first entry beginning `01 12` is among the
counted entries: the result is the checked big-endian value of that entry, whatever
follows it. -/
theorem walkIFD0_first_entry (order : ByteOrder) (c0 c1 : Byte) (es : List Entry)
    (hes : ∀ e ∈ es, e.Other) (hk : es.length < order.uint16 c0 c1) (six : List Byte)
    (h6 : six.length = 6) (v0 v1 : Byte) (tail : List Byte) :
    walkIFD0 order (c0 :: c1 ::
        (entriesBytes es ++ 0x01 :: 0x12 :: (six ++ v0 :: v1 :: tail))) =
      if 1 ≤ v0.val * 256 + v1.val ∧ v0.val * 256 + v1.val ≤ 8
        then .found (v0.val * 256 + v1.val) tail
      else .unspecified := by
  obtain ⟨j, hj⟩ : ∃ j, order.uint16 c0 c1 = es.length + (j + 1) :=
    ⟨order.uint16 c0 c1 - es.length - 1, by omega⟩
  rw [walkIFD0, readUint16_cons]
  simp only []
  rw [hj, walkTags_others _ es hes, walkTags_orientation _ six h6]

theorem value_ite (v : Nat) (rest : Reader) :
    (if 1 ≤ v ∧ v ≤ 8 then Outcome.found v rest else Outcome.unspecified).value =
      some (checked v) := by
  unfold checked
  split <;> rfl

/-- The tag loop reads no further than the entries it is allowed: on a directory of
entries that do not begin `01 12`, at least as many as the tag count, it ends without a
direction. -/
theorem walkTags_exhausted (n : Nat) (es : List Entry) (hes : ∀ e ∈ es, e.Other)
    (hn : n ≤ es.length) (rest : Reader) :
    walkTags n (entriesBytes es ++ rest) = .unspecified := by
  induction es generalizing n with
  | nil =>
    have h0 : n = 0 := by simpa using hn
    rw [h0]; rfl
  | cons e es ih =>
    cases n with
    | zero => rfl
    | succ n =>
      simp only [entriesBytes, List.append_assoc]
      rw [walkTags_other _ e (hes e (List.mem_cons_self _ _))]
      exact ih n (fun e' he' => hes e' (List.mem_cons_of_mem _ he'))
        (by simp only [List.length_cons] at hn; omega)

/-! ## Bytes that a run leaves unread can be removed from the stream -/

theorem readUint16_cancel {order : ByteOrder} {pre t r1 : Reader} {x : Nat}
    (h : readUint16 order (pre ++ t) = some (x, r1)) (hs : t <:+ r1) :
    ∃ pre1, r1 = pre1 ++ t ∧ readUint16 order pre = some (x, pre1) := by
  obtain ⟨pre1, rfl⟩ := hs
  have hl := readUint16_length h
  simp only [List.length_append] at hl
  match pre, h, hl with
  | [], _, hl => simp only [List.length_nil] at hl; omega
  | [_], _, hl => simp only [List.length_cons, List.length_nil] at hl; omega
  | a :: b :: pre2, h, _ =>
    simp only [List.cons_append, readUint16, Option.some.injEq, Prod.mk.injEq] at h
    have hp : pre2 = pre1 := List.append_cancel_right h.2
    exact ⟨pre1, rfl, by rw [readUint16, h.1, hp]⟩

theorem readUint32_cancel {order : ByteOrder} {pre t r1 : Reader} {x : Nat}
    (h : readUint32 order (pre ++ t) = some (x, r1)) (hs : t <:+ r1) :
    ∃ pre1, r1 = pre1 ++ t ∧ readUint32 order pre = some (x, pre1) := by
  obtain ⟨pre1, rfl⟩ := hs
  have hl := readUint32_length h
  simp only [List.length_append] at hl
  match pre, h, hl with
  | [], _, hl => simp only [List.length_nil] at hl; omega
  | [_], _, hl => simp only [List.length_cons, List.length_nil] at hl; omega
  | [_, _], _, hl => simp only [List.length_cons, List.length_nil] at hl; omega
  | [_, _, _], _, hl => simp only [List.length_cons, List.length_nil] at hl; omega
  | a :: b :: c :: d :: pre2, h, _ =>
    simp only [List.cons_append, readUint32, Option.some.injEq, Prod.mk.injEq] at h
    have hp : pre2 = pre1 := List.append_cancel_right h.2
    exact ⟨pre1, rfl, by rw [readUint32, h.1, hp]⟩

theorem copyN_cancel {n : Nat} {pre t r1 : Reader}
    (h : copyN n (pre ++ t) = some r1) (hs : t <:+ r1) :
    ∃ pre1, r1 = pre1 ++ t ∧ copyN n pre = some pre1 := by
  obtain ⟨pre1, rfl⟩ := hs
  have hl := copyN_length h
  simp only [List.length_append] at hl
  have hn : n ≤ pre.length := by omega
  unfold copyN at h ⊢
  rw [if_pos (by rw [List.length_append]; omega), List.drop_append_of_le_length hn] at h
  simp only [Option.some.injEq] at h
  have hp : pre.drop n = pre1 := List.append_cancel_right h
  exact ⟨pre1, rfl, by rw [if_pos hn, hp]⟩

theorem walkTags_cancel {n : Nat} {pre t q : Reader} {v : Nat}
    (h : walkTags n (pre ++ t) = .found v (q ++ t)) : walkTags n pre = .found v q := by
  induction n generalizing pre with
  | zero => simp [walkTags] at h
  | succ n ih =>
    cases h1 : readUint16 .BigEndian (pre ++ t) with
    | none => simp [walkTags, h1] at h
    | some p1 =>
    obtain ⟨tag, r1⟩ := p1
    by_cases htag : tag ≠ orientationTag
    · cases h2 : copyN 10 r1 with
      | none => simp [walkTags, h1, if_pos htag, h2] at h
      | some r2 =>
        simp only [walkTags, h1, if_pos htag, h2] at h
        have s2 : t <:+ r2 := (List.suffix_append q t).trans (walkTags_suffix h)
        have s1 : t <:+ r1 := s2.trans (copyN_suffix h2)
        obtain ⟨pre1, rfl, c1⟩ := readUint16_cancel h1 s1
        obtain ⟨pre2, rfl, c2⟩ := copyN_cancel h2 s2
        simp only [walkTags, c1, if_pos htag, c2]
        exact ih h
    · cases h2 : copyN 6 r1 with
      | none => simp [walkTags, h1, if_neg htag, h2] at h
      | some r2 =>
        cases h3 : readUint16 .BigEndian r2 with
        | none => simp [walkTags, h1, if_neg htag, h2, h3] at h
        | some p3 =>
          obtain ⟨direction, r3⟩ := p3
          simp only [walkTags, h1, if_neg htag, h2, h3] at h
          split at h
          · exact Outcome.noConfusion h
          · rename_i hd
            simp only [Outcome.found.injEq] at h
            obtain ⟨hv, hr3⟩ := h
            have s3 : t <:+ r3 := by rw [hr3]; exact List.suffix_append q t
            have s2 : t <:+ r2 := s3.trans (readUint16_suffix h3)
            have s1 : t <:+ r1 := s2.trans (copyN_suffix h2)
            obtain ⟨pre1, rfl, c1⟩ := readUint16_cancel h1 s1
            obtain ⟨pre2, rfl, c2⟩ := copyN_cancel h2 s2
            obtain ⟨pre3, hp3, c3⟩ := readUint16_cancel h3 s3
            have hq : pre3 = q := List.append_cancel_right (hp3.symm.trans hr3)
            subst hv
            simp only [walkTags, c1, if_neg htag, c2, c3, if_neg hd, hq]

theorem walkIFD0_cancel {order : ByteOrder} {pre t q : Reader} {v : Nat}
    (h : walkIFD0 order (pre ++ t) = .found v (q ++ t)) :
    walkIFD0 order pre = .found v q := by
  cases h1 : readUint16 order (pre ++ t) with
  | none => simp [walkIFD0, h1] at h
  | some p1 =>
    obtain ⟨numTags, r1⟩ := p1
    simp only [walkIFD0, h1] at h
    have s1 : t <:+ r1 := (List.suffix_append q t).trans (walkTags_suffix h)
    obtain ⟨pre1, rfl, c1⟩ := readUint16_cancel h1 s1
    simp only [walkIFD0, c1]
    exact walkTags_cancel h

theorem parseExif_cancel {pre t q : Reader} {v : Nat}
    (h : parseExif (pre ++ t) = .found v (q ++ t)) : parseExif pre = .found v q := by
  cases h1 : readUint32 .BigEndian (pre ++ t) with
  | none => simp [parseExif, h1] at h
  | some p1 =>
  obtain ⟨header, r1⟩ := p1
  by_cases hh : header ≠ exifHeader
  · simp [parseExif, h1, if_pos hh] at h
  cases h2 : copyN 2 r1 with
  | none => simp [parseExif, h1, if_neg hh, h2] at h
  | some r2 =>
  cases h3 : readUint16 .BigEndian r2 with
  | none => simp [parseExif, h1, if_neg hh, h2, h3] at h
  | some p3 =>
  obtain ⟨byteOrderTag, r3⟩ := p3
  cases h4 : (if byteOrderTag = byteOrderBE then some ByteOrder.BigEndian
      else if byteOrderTag = byteOrderLE then some ByteOrder.LittleEndian else none) with
  | none => simp [parseExif, h1, if_neg hh, h2, h3, h4] at h
  | some byteOrder =>
  cases h5 : copyN 2 r3 with
  | none => simp [parseExif, h1, if_neg hh, h2, h3, h4, h5] at h
  | some r4 =>
  cases h6 : readUint32 .BigEndian r4 with
  | none => simp [parseExif, h1, if_neg hh, h2, h3, h4, h5, h6] at h
  | some p6 =>
  obtain ⟨offset, r5⟩ := p6
  by_cases ho : offset < 8
  · simp [parseExif, h1, if_neg hh, h2, h3, h4, h5, h6, if_pos ho] at h
  cases h7 : copyN (offset - 8) r5 with
  | none => simp [parseExif, h1, if_neg hh, h2, h3, h4, h5, h6, if_neg ho, h7] at h
  | some r6 =>
  simp only [parseExif, h1, if_neg hh, h2, h3, h4, h5, h6, if_neg ho, h7] at h
  have s6 : t <:+ r6 := (List.suffix_append q t).trans (walkIFD0_suffix h)
  have s5 : t <:+ r5 := s6.trans (copyN_suffix h7)
  have s4 : t <:+ r4 := s5.trans (readUint32_suffix h6)
  have s3 : t <:+ r3 := s4.trans (copyN_suffix h5)
  have s2 : t <:+ r2 := s3.trans (readUint16_suffix h3)
  have s1 : t <:+ r1 := s2.trans (copyN_suffix h2)
  obtain ⟨pre1, rfl, c1⟩ := readUint32_cancel h1 s1
  obtain ⟨pre2, rfl, c2⟩ := copyN_cancel h2 s2
  obtain ⟨pre3, rfl, c3⟩ := readUint16_cancel h3 s3
  obtain ⟨pre4, rfl, c4⟩ := copyN_cancel h5 s4
  obtain ⟨pre5, rfl, c5⟩ := readUint32_cancel h6 s5
  obtain ⟨pre6, rfl, c6⟩ := copyN_cancel h7 s6
  simp only [parseExif, c1, if_neg hh, c2, c3, h4, c4, c5, if_neg ho, c6]
  exact walkIFD0_cancel h

theorem scanMarkers_cancel {f : Nat} {pre t q : Reader} {v : Nat}
    (h : scanMarkers f (pre ++ t) = .found v (q ++ t)) :
    scanMarkers f pre = .found v q := by
  induction f generalizing pre with
  | zero => simp [scanMarkers] at h
  | succ f ih =>
    cases h1 : readUint16 .BigEndian (pre ++ t) with
    | none => simp [scanMarkers, h1] at h
    | some p1 =>
    obtain ⟨marker, r1⟩ := p1
    cases h2 : readUint16 .BigEndian r1 with
    | none => simp [scanMarkers, h1, h2] at h
    | some p2 =>
    obtain ⟨size, r2⟩ := p2
    by_cases hm : marker / 256 ≠ 0xff
    · simp [scanMarkers, h1, h2, if_pos hm] at h
    by_cases ha : marker = markerAPP1
    · simp only [scanMarkers, h1, h2, if_neg hm, if_pos ha] at h
      have s2 : t <:+ r2 := (List.suffix_append q t).trans (parseExif_suffix h)
      have s1 : t <:+ r1 := s2.trans (readUint16_suffix h2)
      obtain ⟨pre1, rfl, c1⟩ := readUint16_cancel h1 s1
      obtain ⟨pre2, rfl, c2⟩ := readUint16_cancel h2 s2
      simp only [scanMarkers, c1, c2, if_neg hm, if_pos ha]
      exact parseExif_cancel h
    by_cases hs : size < 2
    · simp [scanMarkers, h1, h2, if_neg hm, if_neg ha, if_pos hs] at h
    cases h3 : copyN (size - 2) r2 with
    | none => simp [scanMarkers, h1, h2, if_neg hm, if_neg ha, if_neg hs, h3] at h
    | some r3 =>
    simp only [scanMarkers, h1, h2, if_neg hm, if_neg ha, if_neg hs, h3] at h
    have s3 : t <:+ r3 := (List.suffix_append q t).trans (scanMarkers_suffix h)
    have s2 : t <:+ r2 := s3.trans (copyN_suffix h3)
    have s1 : t <:+ r1 := s2.trans (readUint16_suffix h2)
    obtain ⟨pre1, rfl, c1⟩ := readUint16_cancel h1 s1
    obtain ⟨pre2, rfl, c2⟩ := readUint16_cancel h2 s2
    obtain ⟨pre3, rfl, c3⟩ := copyN_cancel h3 s3
    simp only [scanMarkers, c1, c2, if_neg hm, if_neg ha, if_neg hs, c3]
    exact ih h

/-- A run that returned a direction and left the bytes `t` unread returns the same
direction, at the same position, on the stream without `t`. -/
theorem run_cancel {pre t q : Reader} {v : Nat}
    (h : run (pre ++ t) = .found v (q ++ t)) : run pre = .found v q := by
  cases h1 : readUint16 .BigEndian (pre ++ t) with
  | none => simp [run, readOrientationFuel, h1] at h
  | some p1 =>
  obtain ⟨soi, r1⟩ := p1
  by_cases hs : soi ≠ markerSOI
  · simp [run, readOrientationFuel, h1, if_pos hs] at h
  simp only [run, readOrientationFuel, h1, if_neg hs] at h
  have s1 : t <:+ r1 := (List.suffix_append q t).trans (scanMarkers_suffix h)
  obtain ⟨pre1, rfl, c1⟩ := readUint16_cancel h1 s1
  have hc := scanMarkers_cancel h
  have l1 := readUint16_length c1
  simp only [run, readOrientationFuel, c1, if_neg hs]
  rw [scanMarkers_fuel (pre.length + 1) ((pre ++ t).length + 1) pre1 (by omega)
    (by rw [List.length_append]; omega)]
  exact hc

/-! ## The two loops as iterations of their bodies -/

theorem scanMarkers_step (fuel : Nat) (r : Reader) :
    scanMarkers (fuel + 1) r =
      match markerStep r with
      | .next r3 => scanMarkers fuel r3
      | .app1 r2 => parseExif r2
      | .unspecified => .unspecified := by
  cases h1 : readUint16 .BigEndian r with
  | none => simp only [scanMarkers, markerStep, h1]
  | some p1 =>
  obtain ⟨marker, r1⟩ := p1
  cases h2 : readUint16 .BigEndian r1 with
  | none => simp only [scanMarkers, markerStep, h1, h2]
  | some p2 =>
  obtain ⟨size, r2⟩ := p2
  by_cases hm : marker / 256 ≠ 0xff
  · simp only [scanMarkers, markerStep, h1, h2, if_pos hm]
  by_cases ha : marker = markerAPP1
  · simp only [scanMarkers, markerStep, h1, h2, if_neg hm, if_pos ha]
  by_cases hs : size < 2
  · simp only [scanMarkers, markerStep, h1, h2, if_neg hm, if_neg ha, if_pos hs]
  cases h3 : copyN (size - 2) r2 with
  | none => simp only [scanMarkers, markerStep, h1, h2, if_neg hm, if_neg ha, if_neg hs, h3]
  | some r3 =>
    simp only [scanMarkers, markerStep, h1, h2, if_neg hm, if_neg ha, if_neg hs, h3]

/-- An iteration of the marker loop that does not leave the loop consumes at least 4
bytes. -/
theorem markerStep_next {r r3 : Reader} (h : markerStep r = .next r3) :
    r3.length + 4 ≤ r.length := by
  cases h1 : readUint16 .BigEndian r with
  | none => simp [markerStep, h1] at h
  | some p1 =>
  obtain ⟨marker, r1⟩ := p1
  cases h2 : readUint16 .BigEndian r1 with
  | none => simp [markerStep, h1, h2] at h
  | some p2 =>
  obtain ⟨size, r2⟩ := p2
  by_cases hm : marker / 256 ≠ 0xff
  · simp [markerStep, h1, h2, if_pos hm] at h
  by_cases ha : marker = markerAPP1
  · simp [markerStep, h1, h2, if_neg hm, if_pos ha] at h
  by_cases hs : size < 2
  · simp [markerStep, h1, h2, if_neg hm, if_neg ha, if_pos hs] at h
  cases h3 : copyN (size - 2) r2 with
  | none => simp [markerStep, h1, h2, if_neg hm, if_neg ha, if_neg hs, h3] at h
  | some r4 =>
    simp only [markerStep, h1, h2, if_neg hm, if_neg ha, if_neg hs, h3,
      MarkerStep.next.injEq] at h
    have l1 := readUint16_length h1
    have l2 := readUint16_length h2
    have l3 := copyN_length h3
    rw [← h]; omega

theorem markerStep_short {r : Reader} (h : r.length < 4) : markerStep r = .unspecified := by
  match r, h with
  | [], _ => rfl
  | [_], _ => rfl
  | [_, _], _ => rfl
  | [_, _, _], _ => rfl
  | _ :: _ :: _ :: _ :: _, h => exact absurd h (by simp only [List.length_cons]; omega)

theorem walkTags_step (n : Nat) (r : Reader) :
    walkTags (n + 1) r =
      match tagStep r with
      | .next r2 => walkTags n r2
      | .done o => o := by
  cases h1 : readUint16 .BigEndian r with
  | none => simp only [walkTags, tagStep, h1]
  | some p1 =>
  obtain ⟨tag, r1⟩ := p1
  by_cases htag : tag ≠ orientationTag
  · cases h2 : copyN 10 r1 with
    | none => simp only [walkTags, tagStep, h1, if_pos htag, h2]
    | some r2 => simp only [walkTags, tagStep, h1, if_pos htag, h2]
  · cases h2 : copyN 6 r1 with
    | none => simp only [walkTags, tagStep, h1, if_neg htag, h2]
    | some r2 =>
      cases h3 : readUint16 .BigEndian r2 with
      | none => simp only [walkTags, tagStep, h1, if_neg htag, h2, h3]
      | some p3 =>
        obtain ⟨direction, r3⟩ := p3
        simp only [walkTags, tagStep, h1, if_neg htag, h2, h3]
        split <;> rfl

/-- An iteration of the tag loop that reaches `continue` has consumed 12 bytes. -/
theorem tagStep_next {r r2 : Reader} (h : tagStep r = .next r2) :
    r2.length + 12 = r.length := by
  cases h1 : readUint16 .BigEndian r with
  | none => simp [tagStep, h1] at h
  | some p1 =>
  obtain ⟨tag, r1⟩ := p1
  by_cases htag : tag ≠ orientationTag
  · cases h2 : copyN 10 r1 with
    | none => simp [tagStep, h1, if_pos htag, h2] at h
    | some r3 =>
      simp only [tagStep, h1, if_pos htag, h2, TagStep.next.injEq] at h
      have l1 := readUint16_length h1
      have l2 := copyN_length h2
      rw [← h]; omega
  · cases h2 : copyN 6 r1 with
    | none => simp [tagStep, h1, if_neg htag, h2] at h
    | some r3 =>
      cases h3 : readUint16 .BigEndian r3 with
      | none => simp [tagStep, h1, if_neg htag, h2, h3] at h
      | some p3 =>
        obtain ⟨direction, r4⟩ := p3
        simp only [tagStep, h1, if_neg htag, h2, h3] at h
        split at h <;> exact TagStep.noConfusion h

theorem readOrientationFuel_eq_run (fuel : Nat) (r : Reader) (hf : r.length < fuel) :
    readOrientationFuel fuel r = run r := by
  cases h1 : readUint16 .BigEndian r with
  | none => simp only [run, readOrientationFuel, h1]
  | some p1 =>
    obtain ⟨soi, r1⟩ := p1
    have l1 := readUint16_length h1
    simp only [run, readOrientationFuel, h1]
    rw [scanMarkers_fuel fuel (r.length + 1) r1 (by omega) (by omega)]

/-! ## The claims -/

/-- C1: big-endian functional correctness.  On every stream made of `FF D8`, well-formed
segments that are not APP1, `FF E1` with any size bytes, `Exif`, two bytes, `MM`, two
bytes, a big-endian offset `o ≥ 8`, `o - 8` bytes, a big-endian tag count `n`, `k < n`
twelve-byte entries that do not begin `01 12`, an entry `01 12` with six bytes and the
big-endian value `v`, then any bytes, `readOrientation` returns `v` when `1 ≤ v ≤ 8` and
`orientationUnspecified` otherwise. -/
theorem readOrientation_bigEndian (p : Preamble) (hp : p.WellFormed)
    (hbe : p.order = .BigEndian) (c0 c1 : Byte) (es : List Entry) (hes : ∀ e ∈ es, e.Other)
    (hk : es.length < c0.val * 256 + c1.val) (six : List Byte) (h6 : six.length = 6)
    (v0 v1 : Byte) (tail : List Byte) :
    readOrientation (p.bytes ++ c0 :: c1 ::
        (entriesBytes es ++ 0x01 :: 0x12 :: (six ++ v0 :: v1 :: tail))) =
      some (checked (v0.val * 256 + v1.val)) := by
  rw [readOrientation, run_preamble p hp, hbe,
    walkIFD0_first_entry .BigEndian c0 c1 es hes hk six h6, value_ite]

/-- Scenario A: no leading segment, offset 8, one entry, value `00 03` gives
`orientationRotate180`. -/
theorem readOrientation_bigEndian_witness :
    readOrientation [0xFF, 0xD8, 0xFF, 0xE1, 0x00, 0x1A, 0x45, 0x78, 0x69, 0x66, 0x00, 0x00,
      0x4D, 0x4D, 0x00, 0x2A, 0x00, 0x00, 0x00, 0x08, 0x00, 0x01,
      0x01, 0x12, 0x00, 0x03, 0x00, 0x00, 0x00, 0x01, 0x00, 0x03, 0x00, 0x00]
      = some orientationRotate180 :=
  readOrientation_bigEndian preambleA (by decide) rfl 0x00 0x01 [] (by decide) (by decide)
    [0x00, 0x03, 0x00, 0x00, 0x00, 0x01] rfl 0x00 0x03 [0x00, 0x00]

/-- C2: on every byte stream the value `readOrientation` returns is one of 0, 1, ..., 8:
it is `orientationUnspecified` or a value that passed the check `1 ≤ v ≤ 8`. -/
theorem readOrientation_range (r : Reader) :
    ∃ v, readOrientation r = some v ∧ (v = orientationUnspecified ∨ (1 ≤ v ∧ v ≤ 8)) := by
  have hr := run_inRange r
  have hf := run_ne_outOfFuel r
  unfold readOrientation
  cases h : run r with
  | found direction rest =>
    rw [h] at hr
    exact ⟨direction, rfl, Or.inr hr⟩
  | unspecified => exact ⟨orientationUnspecified, rfl, Or.inl rfl⟩
  | outOfFuel => exact absurd h hf

/-- C3: on every stream whose first two bytes are not `FF D8`, streams shorter than two
bytes included, `readOrientation` returns `orientationUnspecified`. -/
theorem readOrientation_not_soi (r : Reader) (h : r.take 2 ≠ [0xFF, 0xD8]) :
    readOrientation r = some orientationUnspecified := by
  rw [readOrientation, run_not_soi r h]; rfl

/-- Scenario D: four zero bytes. -/
theorem readOrientation_not_soi_witness :
    readOrientation [0x00, 0x00, 0x00, 0x00] = some orientationUnspecified :=
  readOrientation_not_soi [0x00, 0x00, 0x00, 0x00] (by decide)

/-- C4: Scenario B, evaluated on the code.  The offset bytes `08 00 00 00` are read
big-endian (line 114), so 134217720 bytes are to be skipped where 12 remain, and the
function returns `orientationUnspecified`, not `orientationRotate180`. -/
theorem readOrientation_scenarioB (z0 z1 g0 g1 b0 b1 b2 b3 b4 b5 : Byte) :
    readOrientation (scenarioB z0 z1 g0 g1 b0 b1 b2 b3 b4 b5) =
      some orientationUnspecified := by
  have hoff : ByteOrder.BigEndian.uint32 0x08 0x00 0x00 0x00 = 134217728 := rfl
  have hex : ByteOrder.BigEndian.uint32 0x45 0x78 0x69 0x66 = exifHeader := rfl
  have hle : ByteOrder.BigEndian.uint16 0x49 0x49 = byteOrderLE := rfl
  have hc : copyN (134217728 - 8)
      [0x01, 0x00, 0x01, 0x12, b0, b1, b2, b3, b4, b5, 0x03, 0x00] = none :=
    copyN_eq_none (by simp)
  rw [readOrientation, scenarioB, run_soi, scan_app1, parseExif_cons, hex, hoff, hle, hc]
  rfl

/-- C5: truncation safety.  When `readOrientation` returns a direction on the stream `s`
after consuming exactly `n` bytes, every prefix of `s` with fewer than `n` bytes yields
`orientationUnspecified`; and for every prefix `p` of every stream `s`, the result on `p`
is `orientationUnspecified` or equal to the result on `s`. -/
theorem readOrientation_truncation (s p : Reader) (hp : p <+: s) :
    (∀ n, consumed s = some n → p.length < n →
        readOrientation p = some orientationUnspecified) ∧
      (readOrientation p = some orientationUnspecified ∨
        readOrientation p = readOrientation s) := by
  obtain ⟨t, rfl⟩ := hp
  have hf := run_ne_outOfFuel p
  cases h : run p with
  | outOfFuel => exact absurd h hf
  | unspecified =>
    have h0 : readOrientation p = some orientationUnspecified := by
      rw [readOrientation, h]; rfl
    exact ⟨fun _ _ _ => h0, Or.inl h0⟩
  | found v rest =>
    have ha := run_append h t
    refine ⟨?_, Or.inr (by rw [readOrientation, readOrientation, h, ha]; rfl)⟩
    intro n hn hlt
    simp only [consumed, ha, Option.some.injEq, List.length_append] at hn
    omega

/-- Scenario A returns its direction after 32 bytes; cut after 31 bytes it yields
`orientationUnspecified`. -/
theorem readOrientation_truncation_witness :
    consumed scenarioA = some 32 ∧
      readOrientation (scenarioA.take 31) = some orientationUnspecified :=
  ⟨by decide, (readOrientation_truncation scenarioA (scenarioA.take 31)
    ⟨scenarioA.drop 31, List.take_append_drop 31 scenarioA⟩).1 32 (by decide) (by decide)⟩

/-- C6, evaluated on the code at a stream with byte order `II` whose directory counts two
orientation entries, the first with the value bytes `03 00`, 3 in that byte order, the
second with the value bytes `00 03`.  The first entry alone decides the result, whatever
follows it, but its value is read big-endian (line 151) as 768, and the function returns
`orientationUnspecified`, not `orientationRotate180`. -/
theorem readOrientation_first_entry_littleEndian :
    preambleLE.WellFormed ∧ preambleLE.order = .LittleEndian ∧
      ByteOrder.LittleEndian.uint16 0x03 0x00 = 3 ∧
      readOrientation (preambleLE.bytes ++ directoryTwoEntries) =
        some orientationUnspecified ∧
      ∀ tail : List Byte,
        readOrientation (preambleLE.bytes ++ 0x02 :: 0x00 :: (entriesBytes [] ++
          0x01 :: 0x12 :: ([0x03, 0x00, 0x01, 0x00, 0x00, 0x00] ++ 0x03 :: 0x00 :: tail))) =
          some orientationUnspecified := by
  refine ⟨by decide, rfl, rfl, by decide, fun tail => ?_⟩
  rw [readOrientation, run_preamble preambleLE (by decide),
    walkIFD0_first_entry preambleLE.order 0x02 0x00 [] (by decide) (by decide)
      [0x03, 0x00, 0x01, 0x00, 0x00, 0x00] rfl, value_ite]
  rfl

/-- C7: on every stream made of `FF D8` and well-formed segments none of which is APP1,
followed by the end of the stream or by fewer than 4 bytes, `readOrientation` returns
`orientationUnspecified`. -/
theorem readOrientation_no_app1 (gs : List Segment) (hgs : ∀ g ∈ gs, g.WellFormed)
    (rest : List Byte) (hrest : rest.length < 4) :
    readOrientation (0xFF :: 0xD8 :: (segmentsBytes gs ++ rest)) =
      some orientationUnspecified := by
  rw [readOrientation, run_soi, scan_segments gs hgs, scan_short rest hrest]; rfl

/-- A stream with an APP0 segment and a quantization-table segment, then one stray byte. -/
theorem readOrientation_no_app1_witness :
    readOrientation (0xFF :: 0xD8 :: (segmentsBytes
        [⟨0xE0, 0x00, 0x04, [0x4A, 0x46]⟩, ⟨0xDB, 0x00, 0x02, []⟩] ++ [0xFF])) =
      some orientationUnspecified :=
  readOrientation_no_app1 [⟨0xE0, 0x00, 0x04, [0x4A, 0x46]⟩, ⟨0xDB, 0x00, 0x02, []⟩]
    (by decide) [0xFF] (by decide)

/-- C8: on every stream made of `FF D8`, well-formed segments that are not APP1, then
`FF E1` with two size bytes, whose next four bytes are not `Exif` or are missing,
`readOrientation` returns `orientationUnspecified` whatever follows: only the first APP1
segment is examined. -/
theorem readOrientation_not_exif (gs : List Segment) (hgs : ∀ g ∈ gs, g.WellFormed)
    (z0 z1 : Byte) (rest : List Byte) (hrest : rest.take 4 ≠ [0x45, 0x78, 0x69, 0x66]) :
    readOrientation (0xFF :: 0xD8 :: (segmentsBytes gs ++ 0xFF :: 0xE1 :: z0 :: z1 :: rest)) =
      some orientationUnspecified := by
  rw [readOrientation, run_soi, scan_segments gs hgs, scan_app1, parseExif_not_exif rest hrest]
  rfl

/-- A first APP1 segment that holds `http`, then a second APP1 segment with the EXIF block
of Scenario A: the second segment is not examined. -/
theorem readOrientation_not_exif_witness :
    readOrientation (0xFF :: 0xD8 :: (segmentsBytes [⟨0xE0, 0x00, 0x02, []⟩] ++
        0xFF :: 0xE1 :: 0x00 :: 0x06 :: (0x68 :: 0x74 :: 0x74 :: 0x70 :: scenarioA.drop 2))) =
      some orientationUnspecified :=
  readOrientation_not_exif [⟨0xE0, 0x00, 0x02, []⟩] (by decide) 0x00 0x06
    (0x68 :: 0x74 :: 0x74 :: 0x70 :: scenarioA.drop 2) (by decide)

/-- C9: on every stream that passes the start-of-image check, reaches an APP1 segment and
passes the `Exif` check, when the byte-order tag, read big-endian after the two padding
bytes, is neither `0x4D4D` nor `0x4949`, `readOrientation` returns
`orientationUnspecified` whatever follows. -/
theorem readOrientation_bad_byteOrder (gs : List Segment) (hgs : ∀ g ∈ gs, g.WellFormed)
    (z0 z1 p0 p1 t0 t1 : Byte) (rest : List Byte)
    (hbe : ByteOrder.BigEndian.uint16 t0 t1 ≠ byteOrderBE)
    (hle : ByteOrder.BigEndian.uint16 t0 t1 ≠ byteOrderLE) :
    readOrientation (0xFF :: 0xD8 :: (segmentsBytes gs ++ 0xFF :: 0xE1 :: z0 :: z1 ::
        0x45 :: 0x78 :: 0x69 :: 0x66 :: p0 :: p1 :: t0 :: t1 :: rest)) =
      some orientationUnspecified := by
  rw [readOrientation, run_soi, scan_segments gs hgs, scan_app1, parseExif, readUint32_cons]
  have hex : ByteOrder.BigEndian.uint32 0x45 0x78 0x69 0x66 = exifHeader := rfl
  simp only [hex, ne_eq, not_true_eq_false, if_false, copyN_cons2, readUint16_cons, hbe, hle]
  rfl

/-- The stream of Scenario A with the mixed byte-order tag `4D 49` in place of `4D 4D`. -/
theorem readOrientation_bad_byteOrder_witness :
    readOrientation (0xFF :: 0xD8 :: (segmentsBytes [] ++ 0xFF :: 0xE1 :: 0x00 :: 0x1A ::
        0x45 :: 0x78 :: 0x69 :: 0x66 :: 0x00 :: 0x00 :: 0x4D :: 0x49 :: scenarioA.drop 14)) =
      some orientationUnspecified :=
  readOrientation_bad_byteOrder [] (by decide) 0x00 0x1A 0x00 0x00 0x4D 0x49
    (scenarioA.drop 14) (by decide) (by decide)

/-- C10, evaluated on the code at a stream with byte order `II` whose offset bytes
`01 00 00 00` decode to 1 in that byte order: the offset is read big-endian (line 114) as
16777216, the check `offset < 8` passes, 16777208 bytes are skipped and the function
returns `orientationRotate180`, not `orientationUnspecified`. -/
theorem readOrientation_smallOffset :
    (preambleSmallOffset (List.replicate 16777208 0x00)).order = .LittleEndian ∧
      (preambleSmallOffset (List.replicate 16777208 0x00)).offset = 1 ∧
      readOrientation ((preambleSmallOffset (List.replicate 16777208 0x00)).bytes ++
        directorySmallOffset) = some orientationRotate180 :=
  ⟨rfl, rfl, congrArg Outcome.value (run_smallOffset _ (List.length_replicate _ _))⟩

/-- C11, evaluated on the code at a stream with byte order `II` and offset bytes
`08 00 00 00`, offset 8 in that byte order: with zero bytes skipped the directory that
follows gives `orientationRotate180`, but the offset is read big-endian (line 114) as
134217728, the skip of 134217720 bytes fails and the function returns
`orientationUnspecified`. -/
theorem readOrientation_offset_littleEndian :
    preambleLE8.order = .LittleEndian ∧ preambleLE8.offset = 8 ∧
      walkIFD0 preambleLE8.order directorySmallOffset = .found orientationRotate180 [] ∧
      readOrientation (preambleLE8.bytes ++ directorySmallOffset) =
        some orientationUnspecified := by
  decide

/-- C12, evaluated on the code at two streams with byte order `II` that reach an
orientation entry: the value bytes `03 00`, 3 in that byte order, are read big-endian
(line 151) as 768 and the function returns `orientationUnspecified`; the value bytes
`00 03`, 768 in that byte order, are read as 3 and the function returns
`orientationRotate180`. -/
theorem readOrientation_value_littleEndian :
    preambleLE.WellFormed ∧ preambleLE.order = .LittleEndian ∧
      ByteOrder.LittleEndian.uint16 0x03 0x00 = 3 ∧
      readOrientation (preambleLE.bytes ++ directoryLE) = some orientationUnspecified ∧
      ByteOrder.LittleEndian.uint16 0x00 0x03 = 768 ∧
      readOrientation (preambleLE.bytes ++ directorySmallOffset) =
        some orientationRotate180 := by
  decide

/-- C13: the tag id of a directory entry is read big-endian under both byte orders.  On
every stream that reaches the directory, at a counted entry that follows entries not
beginning `01 12`, the entry is taken as the orientation entry exactly when its first two
bytes are `01 12`: then the result is its checked value; otherwise the entry is stepped
over and the walk goes on with the entries that remain. -/
theorem readOrientation_tag_bigEndian (p : Preamble) (hp : p.WellFormed) (c0 c1 : Byte)
    (es : List Entry) (hes : ∀ e ∈ es, e.Other) (hk : es.length < p.order.uint16 c0 c1)
    (t0 t1 : Byte) (six : List Byte) (h6 : six.length = 6) (v0 v1 w0 w1 : Byte)
    (tail : List Byte) :
    readOrientation (p.bytes ++ c0 :: c1 ::
        (entriesBytes es ++ t0 :: t1 :: (six ++ v0 :: v1 :: w0 :: w1 :: tail))) =
      if t0 = 0x01 ∧ t1 = 0x12 then some (checked (v0.val * 256 + v1.val))
      else (walkTags (p.order.uint16 c0 c1 - es.length - 1) tail).value := by
  obtain ⟨j, hj⟩ : ∃ j, p.order.uint16 c0 c1 = es.length + (j + 1) :=
    ⟨p.order.uint16 c0 c1 - es.length - 1, by omega⟩
  have hj2 : p.order.uint16 c0 c1 - es.length - 1 = j := by omega
  rw [readOrientation, run_preamble p hp, walkIFD0, readUint16_cons]
  simp only []
  rw [hj2, hj, walkTags_others _ es hes]
  by_cases ht : t0 = 0x01 ∧ t1 = 0x12
  · rw [if_pos ht, ht.1, ht.2, walkTags_orientation _ six h6, value_ite]
  · rw [if_neg ht]
    have he : (⟨t0, t1, six ++ [v0, v1, w0, w1]⟩ : Entry).Other :=
      ⟨by simp only [List.length_append, h6]; rfl, ht⟩
    have hw := walkTags_other j ⟨t0, t1, six ++ [v0, v1, w0, w1]⟩ he tail
    simp only [Entry.bytes, List.append_assoc, List.cons_append, List.nil_append] at hw
    rw [hw]

/-- Under `II` an entry that begins `12 01`, the tag id 0x0112 stored little-endian,
is stepped over: the directory of that one entry, with the value 3, gives
`orientationUnspecified`. -/
theorem readOrientation_tag_bigEndian_witness :
    readOrientation (preambleLE.bytes ++ 0x01 :: 0x00 :: (entriesBytes [] ++ 0x12 :: 0x01 ::
        ([0x03, 0x00, 0x01, 0x00, 0x00, 0x00] ++ 0x00 :: 0x03 :: 0x00 :: 0x00 :: []))) =
      some orientationUnspecified :=
  (readOrientation_tag_bigEndian preambleLE (by decide) 0x01 0x00 [] (by decide) (by decide)
    0x12 0x01 [0x03, 0x00, 0x01, 0x00, 0x00, 0x00] rfl 0x00 0x03 0x00 0x00 []).trans
    (by decide)

/-- C14: `readOrientation` terminates on every finite byte stream.  Every run ends with
a value, the same for every bound on the marker loop above the length of the stream; the
marker loop is the iteration of its body, and an iteration that does not leave the loop
consumes at least 4 bytes; a body run on fewer than 4 bytes returns
`orientationUnspecified`; a skip of `n` bytes consumes exactly `n` bytes and fails when
fewer remain; the tag count is at most 65535, the tag loop is the iteration of its body
with the count going down by one at every `continue`, which consumes 12 bytes, and it
ends when the count is used up. -/
theorem readOrientation_terminates :
    (∀ r : Reader, ∃ v, readOrientation r = some v) ∧
      (∀ (fuel : Nat) (r : Reader), r.length < fuel → readOrientationFuel fuel r = run r) ∧
      (∀ (fuel : Nat) (r : Reader), scanMarkers (fuel + 1) r =
        match markerStep r with
        | .next r3 => scanMarkers fuel r3
        | .app1 r2 => parseExif r2
        | .unspecified => .unspecified) ∧
      (∀ r r3 : Reader, markerStep r = .next r3 → r3.length + 4 ≤ r.length) ∧
      (∀ r : Reader, r.length < 4 → markerStep r = .unspecified) ∧
      (∀ (n : Nat) (r r1 : Reader), copyN n r = some r1 → r1.length + n = r.length) ∧
      (∀ (n : Nat) (r : Reader), r.length < n → copyN n r = none) ∧
      (∀ (order : ByteOrder) (r r1 : Reader) (numTags : Nat),
        readUint16 order r = some (numTags, r1) → numTags ≤ 65535) ∧
      (∀ (n : Nat) (r : Reader), walkTags (n + 1) r =
        match tagStep r with
        | .next r2 => walkTags n r2
        | .done o => o) ∧
      (∀ r r2 : Reader, tagStep r = .next r2 → r2.length + 12 = r.length) ∧
      (∀ r : Reader, walkTags 0 r = .unspecified) := by
  refine ⟨fun r => ?_, readOrientationFuel_eq_run, scanMarkers_step,
    fun _ _ h => markerStep_next h, fun _ h => markerStep_short h,
    fun _ _ _ h => (copyN_length h).symm, fun _ _ h => copyN_eq_none h,
    fun _ _ _ _ h => Nat.le_of_lt_succ (readUint16_lt h), walkTags_step,
    fun _ _ h => tagStep_next h, fun _ => rfl⟩
  have hf := run_ne_outOfFuel r
  unfold readOrientation
  cases h : run r with
  | found direction rest => exact ⟨direction, rfl⟩
  | unspecified => exact ⟨orientationUnspecified, rfl⟩
  | outOfFuel => exact absurd h hf

/-- C15: malformed segment headers are rejected.  On every stream made of `FF D8`,
well-formed segments that are not APP1, then a 4-byte header `a b c d` in which `a` is
not `FF`, or in which the marker is `FF b` with `b` not `E1` and the big-endian size
`c d` is 0 or 1, `readOrientation` returns `orientationUnspecified` whatever follows. -/
theorem readOrientation_bad_header (gs : List Segment) (hgs : ∀ g ∈ gs, g.WellFormed)
    (a b c d : Byte) (rest : List Byte)
    (h : a ≠ 0xFF ∨ (a = 0xFF ∧ b ≠ 0xE1 ∧ c.val * 256 + d.val < 2)) :
    readOrientation (0xFF :: 0xD8 :: (segmentsBytes gs ++ a :: b :: c :: d :: rest)) =
      some orientationUnspecified := by
  have ha := a.isLt
  have hb := b.isLt
  rw [readOrientation, run_soi, scan_segments gs hgs, scan_cons]
  rcases h with h | ⟨h1, h2, h3⟩
  · have hne : a.val ≠ 255 := fun hv => h (Fin.ext hv)
    rw [if_pos (by omega)]; rfl
  · have hv : a.val = 255 := by rw [h1]; rfl
    have hne : b.val ≠ 225 := fun hv => h2 (Fin.ext hv)
    rw [if_neg (by omega), if_neg (by simp only [markerAPP1]; omega), if_pos h3]; rfl

/-- A header `00 E1` before the EXIF block of Scenario A, and a header `FF E0` with the
size 1: both streams give `orientationUnspecified`. -/
theorem readOrientation_bad_header_witness :
    readOrientation (0xFF :: 0xD8 :: (segmentsBytes [] ++ 0x00 :: 0xE1 :: 0x00 :: 0x1A ::
        scenarioA.drop 6)) = some orientationUnspecified ∧
      readOrientation (0xFF :: 0xD8 :: (segmentsBytes [] ++ 0xFF :: 0xE0 :: 0x00 :: 0x01 ::
        scenarioA.drop 2)) = some orientationUnspecified :=
  ⟨readOrientation_bad_header [] (by decide) 0x00 0xE1 0x00 0x1A (scenarioA.drop 6)
      (by decide),
    readOrientation_bad_header [] (by decide) 0xFF 0xE0 0x00 0x01 (scenarioA.drop 2)
      (by decide)⟩

/-- C16: the tag count is decoded in the resolved byte order.  On every stream that
reaches the directory, the tag loop is run with the two count bytes decoded big-endian
under `MM` and little-endian under `II`, and that number bounds the entries examined: an
orientation entry that follows `k` entries not beginning `01 12` gives its checked value
when `k` is below the decoded count and `orientationUnspecified` otherwise.  The count
bytes `00 01` decode to 1 under `MM` and to 256 under `II`. -/
theorem readOrientation_count_byteOrder (p : Preamble) (hp : p.WellFormed) (c0 c1 : Byte)
    (rest : List Byte) (es : List Entry) (hes : ∀ e ∈ es, e.Other) (six : List Byte)
    (h6 : six.length = 6) (v0 v1 : Byte) (tail : List Byte) :
    run (p.bytes ++ c0 :: c1 :: rest) = walkTags (p.order.uint16 c0 c1) rest ∧
      readOrientation (p.bytes ++ c0 :: c1 ::
          (entriesBytes es ++ 0x01 :: 0x12 :: (six ++ v0 :: v1 :: tail))) =
        (if es.length < p.order.uint16 c0 c1 then some (checked (v0.val * 256 + v1.val))
         else some orientationUnspecified) ∧
      ByteOrder.BigEndian.uint16 0x00 0x01 = 1 ∧
      ByteOrder.LittleEndian.uint16 0x00 0x01 = 256 := by
  refine ⟨?_, ?_, rfl, rfl⟩
  · rw [run_preamble p hp, walkIFD0, readUint16_cons]
  · by_cases hk : es.length < p.order.uint16 c0 c1
    · rw [if_pos hk, readOrientation, run_preamble p hp,
        walkIFD0_first_entry p.order c0 c1 es hes hk six h6, value_ite]
    · rw [if_neg hk, readOrientation, run_preamble p hp, walkIFD0, readUint16_cons]
      simp only []
      rw [walkTags_exhausted _ es hes (by omega)]
      rfl

/-- The count bytes `00 01` before an entry `01 0F` and an orientation entry with the
value 3: under `MM` one entry is examined and the result is `orientationUnspecified`,
under `II` 256 entries may be examined and the result is `orientationRotate180`. -/
theorem readOrientation_count_byteOrder_witness :
    readOrientation (preambleA.bytes ++ 0x00 :: 0x01 :: (entriesBytes [entryMake] ++
        0x01 :: 0x12 :: ([0x00, 0x03, 0x00, 0x00, 0x00, 0x01] ++ 0x00 :: 0x03 :: []))) =
        some orientationUnspecified ∧
      readOrientation (preambleLE.bytes ++ 0x00 :: 0x01 :: (entriesBytes [entryMake] ++
        0x01 :: 0x12 :: ([0x00, 0x03, 0x00, 0x00, 0x00, 0x01] ++ 0x00 :: 0x03 :: []))) =
        some orientationRotate180 :=
  ⟨(readOrientation_count_byteOrder preambleA (by decide) 0x00 0x01 [] [entryMake]
      (by decide) [0x00, 0x03, 0x00, 0x00, 0x00, 0x01] rfl 0x00 0x03 []).2.1.trans
      (by decide),
    (readOrientation_count_byteOrder preambleLE (by decide) 0x00 0x01 [] [entryMake]
      (by decide) [0x00, 0x03, 0x00, 0x00, 0x00, 0x01] rfl 0x00 0x03 []).2.1.trans
      (by decide)⟩

/-- C17: the tag count bounds the walk.  On every stream that reaches the directory with
the tag count `n`, when the `n` twelve-byte entries that follow do not begin `01 12`,
`readOrientation` returns `orientationUnspecified` whatever comes after them, a valid
orientation entry included; with the tag count 0 the result is always
`orientationUnspecified`. -/
theorem readOrientation_count_bound (p : Preamble) (hp : p.WellFormed) (c0 c1 : Byte)
    (es : List Entry) (hes : ∀ e ∈ es, e.Other) (hn : es.length = p.order.uint16 c0 c1)
    (tail : List Byte) :
    readOrientation (p.bytes ++ c0 :: c1 :: (entriesBytes es ++ tail)) =
      some orientationUnspecified := by
  rw [readOrientation, run_preamble p hp, walkIFD0, readUint16_cons]
  simp only []
  rw [walkTags_exhausted _ es hes (by omega)]
  rfl

/-- The tag count 1, an entry `01 0F`, then a valid orientation entry with the value 3;
and the tag count 0 before the entry of Scenario A. -/
theorem readOrientation_count_bound_witness :
    readOrientation (preambleA.bytes ++ 0x00 :: 0x01 :: (entriesBytes [entryMake] ++
        [0x01, 0x12, 0x00, 0x03, 0x00, 0x00, 0x00, 0x01, 0x00, 0x03, 0x00, 0x00])) =
        some orientationUnspecified ∧
      readOrientation (preambleA.bytes ++ 0x00 :: 0x00 :: (entriesBytes [] ++
        [0x01, 0x12, 0x00, 0x03, 0x00, 0x00, 0x00, 0x01, 0x00, 0x03, 0x00, 0x00])) =
        some orientationUnspecified :=
  ⟨readOrientation_count_bound preambleA (by decide) 0x00 0x01 [entryMake] (by decide)
      (by decide) [0x01, 0x12, 0x00, 0x03, 0x00, 0x00, 0x00, 0x01, 0x00, 0x03, 0x00, 0x00],
    readOrientation_count_bound preambleA (by decide) 0x00 0x00 [] (by decide)
      (by decide) [0x01, 0x12, 0x00, 0x03, 0x00, 0x00, 0x00, 0x01, 0x00, 0x03, 0x00, 0x00]⟩

/-- C18: nothing after the 2-byte orientation value is read.  When `readOrientation`
returns the direction `v` on the stream `s` after consuming `n` bytes, it returns `v` on
the first `n` bytes of `s` followed by any bytes `t`, and on the first `n` bytes alone. -/
theorem readOrientation_frame (s : Reader) (n v : Nat) (hv : readOrientation s = some v)
    (hn : consumed s = some n) (t : List Byte) :
    readOrientation (s.take n ++ t) = some v ∧ readOrientation (s.take n) = some v := by
  obtain ⟨w, rest, hrun, hlen⟩ := consumed_spec hn
  have hw : w = v := by
    rw [readOrientation, hrun] at hv
    simpa [Outcome.value] using hv
  obtain ⟨pre, hpre⟩ := run_suffix hrun
  have hpl : pre.length = n := by
    have := congrArg List.length hpre
    simp only [List.length_append] at this
    omega
  have htake : s.take n = pre := by
    rw [← hpre, ← hpl, List.take_left]
  have hc : run pre = .found w [] := by
    apply run_cancel (t := rest)
    rw [hpre, List.nil_append]
    exact hrun
  have ha := run_append hc t
  rw [htake, readOrientation, readOrientation, ha, hc, hw]
  exact ⟨rfl, rfl⟩

/-- Scenario A consumes 32 bytes; cut right after the value bytes `00 03` it still gives
`orientationRotate180`, and so it does with other bytes after them. -/
theorem readOrientation_frame_witness :
    readOrientation (scenarioA.take 32 ++ [0xFF, 0xFF, 0xFF]) = some orientationRotate180 ∧
      readOrientation (scenarioA.take 32) = some orientationRotate180 :=
  readOrientation_frame scenarioA 32 3 (by decide) (by decide) [0xFF, 0xFF, 0xFF]

/-- C19: the size field of the APP1 segment does not influence the result.  Two streams
that reach the marker `FF E1` through the same well-formed segments and differ only in
the two size bytes after it give the same result; a size of 0 or 1 is accepted. -/
theorem readOrientation_app1_size (gs : List Segment) (hgs : ∀ g ∈ gs, g.WellFormed)
    (z0 z1 y0 y1 : Byte) (rest : List Byte) :
    readOrientation (0xFF :: 0xD8 :: (segmentsBytes gs ++ 0xFF :: 0xE1 :: z0 :: z1 :: rest)) =
      readOrientation (0xFF :: 0xD8 ::
        (segmentsBytes gs ++ 0xFF :: 0xE1 :: y0 :: y1 :: rest)) := by
  rw [readOrientation, readOrientation, run_soi, run_soi, scan_segments gs hgs,
    scan_segments gs hgs, scan_app1, scan_app1]

/-- Scenario A with the APP1 size 0 in place of 26 still gives `orientationRotate180`:
the block is read past the end of the declared payload. -/
theorem readOrientation_app1_size_witness :
    readOrientation (0xFF :: 0xD8 :: (segmentsBytes [] ++ 0xFF :: 0xE1 :: 0x00 :: 0x00 ::
        scenarioA.drop 6)) = some orientationRotate180 :=
  (readOrientation_app1_size [] (by decide) 0x00 0x00 0x00 0x1A (scenarioA.drop 6)).trans
    (by decide)

/-- C20: `Encode` silently succeeds on an unsupported format.  For every image, quality
and format string `t` other than `jpg` and `jpeg`, `Encode` leaves the writer as it was
and returns `nil`; and `Close` on a file name whose extension, without its dot, is such
a string returns the error of `fs.Create` or else what `file.Close()` returns on the file
with nothing written to it: no error comes from the encoding. -/
theorem Encode_unsupported {Image Err : Type} (c : Codec Image Err) (fs : FileSystem Err)
    (w : Writer) (img : Image) (quality : Int) (t filename : String)
    (h1 : t ≠ "jpg") (h2 : t ≠ "jpeg")
    (hf1 : removeDots (pathExt filename) ≠ "jpg")
    (hf2 : removeDots (pathExt filename) ≠ "jpeg") :
    Encode c w img t quality = (w, none) ∧
      Close c fs img filename quality =
        match fs.create filename with
        | .error err => some err
        | .ok file => fs.closeFile filename file := by
  constructor
  · rw [Encode, if_neg h1, if_neg h2]
  · unfold Close
    cases fs.create filename with
    | error err => rfl
    | ok file => simp only [Encode, if_neg hf1, if_neg hf2]

/-- The formats `png`, `JPG` and the empty string, with a codec that would write a byte
and fail, and the file name `compress_test.png`. -/
theorem Encode_unsupported_witness :
    Encode failingCodec [] () "png" 50 = ([], none) ∧
      Encode failingCodec [] () "JPG" 50 = ([], none) ∧
      Encode failingCodec [] () "" 50 = ([], none) ∧
      Close failingCodec plainFileSystem () "compress_test.png" 50 = none :=
  ⟨(Encode_unsupported failingCodec plainFileSystem [] () 50 "png" "compress_test.png"
      (by decide) (by decide) (by decide) (by decide)).1,
    (Encode_unsupported failingCodec plainFileSystem [] () 50 "JPG" "compress_test.png"
      (by decide) (by decide) (by decide) (by decide)).1,
    (Encode_unsupported failingCodec plainFileSystem [] () 50 "" "compress_test.png"
      (by decide) (by decide) (by decide) (by decide)).1,
    (Encode_unsupported failingCodec plainFileSystem [] () 50 "png" "compress_test.png"
      (by decide) (by decide) (by decide) (by decide)).2⟩

end Images
